import Mathlib

/-!
Verification of the ghost-viewer core algorithms: the resource tree builder,
the orphan reconciler of the scan endpoint, and the resource identity and
console-link helpers.  JavaScript string and value semantics (truthiness,
split, includes, template coercion) are embedded explicitly so that the
Lean definitions mirror the TypeScript source line by line.
-/

/-! ## JavaScript string primitives -/

/-- One step list of split segments.  Models `String.prototype.split` with a
string separator: scans left to right, cutting at each non-overlapping
occurrence of `sep`.  Fuel is always called with `s.length + 1`, which is
sufficient since every step consumes at least one character. -/
def jsSplitGo (sep : List Char) : Nat → List Char → List Char → List (List Char)
  | 0, acc, s => [acc.reverse ++ s]
  | fuel + 1, acc, s =>
    if sep.isPrefixOf s && !sep.isEmpty then
      acc.reverse :: jsSplitGo sep fuel [] (s.drop sep.length)
    else
      match s with
      | [] => [acc.reverse]
      | c :: cs => jsSplitGo sep fuel (c :: acc) cs

/-- `jsSplitChars sep s`: segments of `s` between occurrences of `sep`. -/
def jsSplitChars (sep s : List Char) : List (List Char) :=
  jsSplitGo sep (s.length + 1) [] s

/-- JS `s.split(sep)` for a non-empty string separator (no caller in the
source splits on the empty string). -/
def jsSplit (sep s : String) : List String :=
  (jsSplitChars sep.data s.data).map String.mk

/-- Does `sep` occur as a contiguous subsequence of `s`?  Models
`String.prototype.includes`. -/
def containsSeq (sep : List Char) : List Char → Bool
  | [] => sep.isPrefixOf []
  | c :: cs => sep.isPrefixOf (c :: cs) || containsSeq sep cs

/-- JS `s.includes(sub)`. -/
def jsIncludes (s sub : String) : Bool :=
  containsSeq sub.data s.data

/-- JS `s.startsWith(pre)`. -/
def jsStartsWith (s pre : String) : Bool :=
  pre.data.isPrefixOf s.data

/-- JS `s.endsWith(suf)`. -/
def jsEndsWith (s suf : String) : Bool :=
  suf.data.isSuffixOf s.data

/-- JS `s.toLowerCase()` (ASCII-accurate). -/
def jsToLower (s : String) : String :=
  String.mk (s.data.map Char.toLower)

/-- Split at every character satisfying `p`; models `s.split(/[:/]/)`-style
single-character-class regex splits. -/
def splitAnyChars (p : Char → Bool) : List Char → List (List Char)
  | [] => [[]]
  | c :: cs =>
    let r := splitAnyChars p cs
    if p c then [] :: r
    else
      match r with
      | seg :: rest => (c :: seg) :: rest
      | [] => [[c]]

/-- JS `s.split(/[:/]/)`. -/
def jsSplitColonSlash (s : String) : List String :=
  (splitAnyChars (fun c => c == ':' || c == '/') s.data).map String.mk

/-- JS `array.join(sep)`. -/
def joinWith (sep : String) : List String → String
  | [] => ""
  | [x] => x
  | x :: y :: xs => x ++ sep ++ joinWith sep (y :: xs)

/-- Uppercase hex digit for a value below 16. -/
def hexDigitU (n : Nat) : Char :=
  if n < 10 then Char.ofNat (48 + n) else Char.ofNat (55 + n)

/-- UTF-8 bytes of one character. -/
def utf8ByteList (c : Char) : List Nat :=
  let n := c.toNat
  if n < 128 then [n]
  else if n < 2048 then [192 + n / 64, 128 + n % 64]
  else if n < 65536 then [224 + n / 4096, 128 + (n / 64) % 64, 128 + n % 64]
  else [240 + n / 262144, 128 + (n / 4096) % 64, 128 + (n / 64) % 64, 128 + n % 64]

/-- Characters `encodeURIComponent` leaves unescaped. -/
def uriUnreserved (c : Char) : Bool :=
  c.isAlphanum || c == '-' || c == '_' || c == '.' || c == '!' || c == '~' ||
    c == '*' || c == Char.ofNat 39 || c == '(' || c == ')'

/-- JS `encodeURIComponent`. -/
def jsEncodeURIComponent (s : String) : String :=
  String.mk (s.data.flatMap (fun c =>
    if uriUnreserved c then [c]
    else (utf8ByteList c).flatMap (fun b => ['%', hexDigitU (b / 16), hexDigitU (b % 16)])))

/-! ## JavaScript values

The open-ended `outputs` records of a resource are modelled as a JSON-like
value type.  A missing object property behaves as `undefined`, which we
conflate with `vnull` (both are falsy and render the same in every code
path the source exercises). -/

inductive JVal where
  | vstr : String → JVal
  | vnum : Int → JVal
  | vbool : Bool → JVal
  | vnull : JVal
  | vobj : List (String × JVal) → JVal
  | varr : List JVal → JVal

/-- JS truthiness. -/
def truthy : JVal → Bool
  | .vstr s => s != ""
  | .vnum n => n != 0
  | .vbool b => b
  | .vnull => false
  | .vobj _ => true
  | .varr _ => true

/-- Property lookup on an object; a missing key yields `vnull`
(JS `undefined`). -/
def jgetD (kvs : List (String × JVal)) (k : String) : JVal :=
  match kvs.find? (fun kv => kv.fst == k) with
  | some kv => kv.snd
  | none => .vnull

/-- JSON string escaping (quotes, backslash and control characters). -/
def jsonEscapeChar (c : Char) : List Char :=
  if c == '"' then ['\\', '"']
  else if c == '\\' then ['\\', '\\']
  else if c.toNat < 32 then
    ['\\', 'u', '0', '0', hexDigitU (c.toNat / 16), hexDigitU (c.toNat % 16)]
  else [c]

/-- JSON string literal for `s`. -/
def jsonQuote (s : String) : String :=
  String.mk ('"' :: s.data.flatMap jsonEscapeChar ++ ['"'])

mutual

/-- JS `JSON.stringify` (compact form). -/
def jsonStringify : JVal → String
  | .vstr s => jsonQuote s
  | .vnum n => toString n
  | .vbool b => if b then "true" else "false"
  | .vnull => "null"
  | .varr xs => "[" ++ joinWith "," (jsonStringifyList xs) ++ "]"
  | .vobj kvs => "\x7b" ++ joinWith "," (jsonStringifyObj kvs) ++ "\x7d"

def jsonStringifyList : List JVal → List String
  | [] => []
  | v :: vs => jsonStringify v :: jsonStringifyList vs

def jsonStringifyObj : List (String × JVal) → List String
  | [] => []
  | kv :: kvs => (jsonQuote kv.fst ++ ":" ++ jsonStringify kv.snd) :: jsonStringifyObj kvs

end

mutual

/-- JS `String(v)` coercion, as used in template literals. -/
def jsToString : JVal → String
  | .vstr s => s
  | .vnum n => toString n
  | .vbool b => if b then "true" else "false"
  | .vnull => "null"
  | .vobj _ => "[object Object]"
  | .varr xs => joinWith "," (jsToStringArr xs)

def jsToStringArr : List JVal → List String
  | [] => []
  | v :: vs => (match v with | .vnull => "" | w => jsToString w) :: jsToStringArr vs

end

/-- `safeRender` from the source: strings and numbers render directly, falsy
values render empty, objects carrying a ciphertext marker are redacted, and
other structured values are JSON-serialized. -/
def safeRender : JVal → String
  | .vstr s => s
  | .vnum n => toString n
  | .vbool false => ""
  | .vnull => ""
  | .vbool true => "true"
  | .vobj kvs =>
    if truthy (jgetD kvs "ciphertext") || truthy (jgetD kvs "4dabf18193072939515e22adb298388d") then
      "[Encrypted Secret]"
    else jsonStringify (.vobj kvs)
  | .varr xs => jsonStringify (.varr xs)

/-! ## Resources and identity helpers -/

/-- A declared infrastructure resource (the `Resource` interface of the
source).  `outputs` is the open-ended provider-attribute object; `id` is
typed `string` in the source interface. -/
structure Resource where
  type : String
  urn : String
  id : Option String := none
  outputs : Option (List (String × JVal)) := none
  parent : Option String := none

/-- `r.outputs?.k`: optional-chained property access. -/
def outGet (r : Resource) (k : String) : JVal :=
  match r.outputs with
  | some kvs => jgetD kvs k
  | none => .vnull

/-- `getSimpleType` from the source: last `:`-segment of the type, and the
part after the last `/` when that segment contains one. -/
def getSimpleType (type : String) : String :=
  let parts := jsSplit ":" type
  let last := parts.getLastD ""
  if jsIncludes last "/" then
    let p := (jsSplit "/" last).getLastD ""
    if p != "" then p else last
  else last

/-- The usable `outputs.arn` of `getResourceId`: the value must be a truthy
string not containing `"ciphertext"`. -/
def usableArn (kvs : List (String × JVal)) : Option String :=
  match jgetD kvs "arn" with
  | .vstr a => if a != "" && !jsIncludes a "ciphertext" then some a else none
  | _ => none

/-- The `else if (r.outputs)` branch of `getResourceId`: the ARN tail when
the ARN is a usable string, else the safely rendered truthy `name`, else the
`"N/A"` sentinel. -/
def idFromOutputs (r : Resource) : String :=
  match r.outputs with
  | none => "N/A"
  | some kvs =>
    match usableArn kvs with
    | some a =>
      let tail := (jsSplit ":" a).getLastD ""
      if tail != "" then tail else a
    | none =>
      let nm := jgetD kvs "name"
      if truthy nm then safeRender nm else "N/A"

/-- `getResourceId` from the source (the exported tree-view variant): the
physical id, else the ARN tail, else the safely rendered name, else the URN
tail; API-gateway routes append their route key. -/
def getResourceId (r : Resource) : String :=
  let baseId :=
    match r.id with
    | some s => if s != "" then s else idFromOutputs r
    | none => idFromOutputs r
  let baseId2 :=
    if baseId == "N/A" then
      let parts := jsSplit "::" r.urn
      let last := parts.getLastD ""
      if last != "" then last else "N/A"
    else baseId
  if jsIncludes r.type "apigateway" && jsIncludes (jsToLower r.type) "route" &&
      truthy (outGet r "routeKey") then
    baseId2 ++ " : " ++ jsToString (outGet r "routeKey")
  else baseId2

/-- The last `:`-segment of an ARN, or the whole ARN when that segment is
empty (`arn.split(":").pop() || arn`). -/
def arnTail (a : String) : String :=
  let t := (jsSplit ":" a).getLastD ""
  if t != "" then t else a

/-- Last `::`-segment of a URN, with the `"N/A"` sentinel for an empty
segment (`parts[parts.length - 1] || "N/A"`). -/
def urnTailOrNA (urn : String) : String :=
  let last := (jsSplit "::" urn).getLastD ""
  if last != "" then last else "N/A"

/-- Is `r` an API-gateway route resource with a truthy route key? -/
def isApigwRoute (r : Resource) : Bool :=
  jsIncludes r.type "apigateway" && jsIncludes (jsToLower r.type) "route" &&
    truthy (outGet r "routeKey")

/-- Display id as the specification words it (with the code's actual guard
conditions): prefer a non-empty `id` string; else the last colon-segment of
a usable `outputs.arn`; else the safe rendering of a truthy `outputs.name`. -/
def displayCandidate (r : Resource) : Option String :=
  (match r.id with
   | some s => if s != "" then some s else none
   | none => none) <|>
  (match r.outputs with
   | some kvs =>
     (match usableArn kvs with
      | some a => some (arnTail a)
      | none =>
        let nm := jgetD kvs "name"
        if truthy nm then some (safeRender nm) else none)
   | none => none)

/-- The specification-worded display id: the first available candidate, the
URN tail whenever the candidate is absent or the literal `"N/A"`, and the
route-key suffix for API-gateway routes. -/
def resourceDisplayId (r : Resource) : String :=
  let base :=
    match displayCandidate r with
    | some s => s
    | none => "N/A"
  let base2 := if base == "N/A" then urnTailOrNA r.urn else base
  if isApigwRoute r then base2 ++ " : " ++ jsToString (outGet r "routeKey")
  else base2

/-- The promoted-types allowlist from `constants.ts`. -/
def PROMOTED_TYPES : List String :=
  ["Bucket", "Function", "Dynamo", "Table", "Api", "ApiGateway", "Vpc",
   "Aurora", "Cluster", "Cron", "Queue", "StateMachine", "States",
   "StaticSite", "CDN"]

/-! ## Console-link helper

`getAwsConsoleLink` is embedded as a function into `Except Unit (Option
String)`: the `.error` outcome marks the only operations of the source that
could throw (calling `.split` on an `undefined` array element), so that
"never throws" is a provable statement rather than a modelling artifact. -/

/-- `parts[i]` interpolated into a template: JS renders a missing element as
`"undefined"`. -/
def partD (parts : List String) (i : Nat) : String :=
  (parts.getD i "undefined")

/-- `parts[5]?.split("/")[1] || parts[5]` interpolated into a template. -/
def sub5 (parts : List String) : String :=
  match parts.get? 5 with
  | none => "undefined"
  | some p =>
    match (jsSplit "/" p).get? 1 with
    | some x => if x != "" then x else p
    | none => p

/-- `parts[5]?.split("/").slice(1).join("/") || parts[5]` (IAM role path). -/
def iamRolePath (parts : List String) : String :=
  match parts.get? 5 with
  | none => "undefined"
  | some p =>
    let j := joinWith "/" ((jsSplit "/" p).drop 1)
    if j != "" then j else p

/-- `arn.split(m)[1].split("/")[0]`, guarded in the source by
`arn.includes(m)`; dereferencing a missing element is the throw case. -/
def segAfter (m arn : String) : Except Unit String :=
  match (jsSplit m arn).get? 1 with
  | some t => .ok ((jsSplit "/" t).getD 0 t)
  | none => .error ()

/-- The service names of the dispatch table in `getAwsConsoleLink`. -/
def serviceTable : List String :=
  ["lambda", "s3", "dynamodb", "sqs", "sns", "rds", "states", "logs",
   "apigateway", "iam", "events", "cognito-idp", "secretsmanager", "acm",
   "cloudfront", "appsync", "kinesis", "ec2"]

/-- The generic console home fallback for unrecognized services. -/
def genericConsoleHome (region : String) : String :=
  "https://" ++ region ++ ".console.aws.amazon.com/console/home?region=" ++ region

/-- `const arn = r.outputs?.arn || r.id || ""`. -/
def arnOrId (r : Resource) : JVal :=
  let a := outGet r "arn"
  if truthy a then a
  else
    match r.id with
    | some s => if s != "" then .vstr s else .vstr ""
    | none => .vstr ""

/-- `const region = r.outputs?.region || "us-west-2"`, coerced to a string
at its template-literal uses. -/
def regionOf (r : Resource) : String :=
  let v := outGet r "region"
  if truthy v then jsToString v else "us-west-2"

/-- The API-gateway branch of the dispatch: six `includes`-guarded URL
patterns, else `null`. -/
def apigatewayLink (region arn : String) : Except Unit (Option String) :=
  if jsIncludes arn "/apis/" then
    match segAfter "/apis/" arn with
    | .ok apiId =>
      .ok (some ("https://" ++ region ++ ".console.aws.amazon.com/apigateway/home?region=" ++
        region ++ "#/apis/" ++ apiId ++ "/dashboard"))
    | .error e => .error e
  else if jsIncludes arn "/restapis/" then
    match segAfter "/restapis/" arn with
    | .ok apiId =>
      .ok (some ("https://" ++ region ++ ".console.aws.amazon.com/apigateway/home?region=" ++
        region ++ "#/apis/" ++ apiId ++ "/resources"))
    | .error e => .error e
  else if jsIncludes arn "/domainnames/" then
    match segAfter "/domainnames/" arn with
    | .ok domain =>
      .ok (some ("https://" ++ region ++ ".console.aws.amazon.com/apigateway/home?region=" ++
        region ++ "#/domain-names/" ++ domain))
    | .error e => .error e
  else if jsIncludes arn "/vpclinks/" then
    match segAfter "/vpclinks/" arn with
    | .ok vid =>
      .ok (some ("https://" ++ region ++ ".console.aws.amazon.com/apigateway/home?region=" ++
        region ++ "#/vpc-links/" ++ vid))
    | .error e => .error e
  else if jsIncludes arn "/usageplans/" then
    match segAfter "/usageplans/" arn with
    | .ok uid =>
      .ok (some ("https://" ++ region ++ ".console.aws.amazon.com/apigateway/home?region=" ++
        region ++ "#/usage-plans/" ++ uid))
    | .error e => .error e
  else if jsIncludes arn "/apikeys/" then
    match segAfter "/apikeys/" arn with
    | .ok kid =>
      .ok (some ("https://" ++ region ++ ".console.aws.amazon.com/apigateway/home?region=" ++
        region ++ "#/api-keys/" ++ kid))
    | .error e => .error e
  else .ok none

/-- The EC2 branch of the dispatch: id-prefix-guarded VPC console patterns,
else the EC2 home page. -/
def ec2Link (region arn : String) : Option String :=
  let seg1 := (jsSplit "/" arn).getD 1 "undefined"
  if jsIncludes arn "/vpc-" then
    some ("https://" ++ region ++ ".console.aws.amazon.com/vpc/home?region=" ++ region ++
      "#VpcDetails:VpcId=" ++ seg1)
  else if jsIncludes arn "/subnet-" then
    some ("https://" ++ region ++ ".console.aws.amazon.com/vpc/home?region=" ++ region ++
      "#SubnetDetails:SubnetId=" ++ seg1)
  else if jsIncludes arn "/igw-" then
    some ("https://" ++ region ++ ".console.aws.amazon.com/vpc/home?region=" ++ region ++
      "#InternetGateway:internetGatewayId=" ++ seg1)
  else if jsIncludes arn "/sg-" then
    some ("https://" ++ region ++ ".console.aws.amazon.com/ec2/v2/home?region=" ++ region ++
      "#SecurityGroup:groupId=" ++ seg1)
  else if jsIncludes arn "/rtb-" then
    some ("https://" ++ region ++ ".console.aws.amazon.com/vpc/home?region=" ++ region ++
      "#RouteTableDetails:RouteTableId=" ++ seg1)
  else if jsIncludes arn "/nat-" then
    some ("https://" ++ region ++ ".console.aws.amazon.com/vpc/home?region=" ++ region ++
      "#NatGatewayDetails:NatGatewayId=" ++ seg1)
  else if jsIncludes arn "/eni-" then
    some ("https://" ++ region ++ ".console.aws.amazon.com/ec2/v2/home?region=" ++ region ++
      "#Nic:networkInterfaceId=" ++ seg1)
  else
    some ("https://" ++ region ++ ".console.aws.amazon.com/ec2/v2/home?region=" ++ region)

/-- The body of the service-dispatch switch, over the colon-split `parts`
and the service segment `parts[2]` of a well-formed ARN. -/
def serviceSwitch (r : Resource) (region arn : String) (parts : List String)
    (service : String) : Except Unit (Option String) :=
  if service == "lambda" then
    .ok (some ("https://" ++ region ++ ".console.aws.amazon.com/lambda/home?region=" ++ region ++
      "#/functions/" ++ partD parts 6 ++ "?tab=code"))
  else if service == "s3" then
    .ok (some ("https://s3.console.aws.amazon.com/s3/buckets/" ++
      (jsSplit ":::" arn).getD 1 "undefined" ++ "?region=" ++ region))
  else if service == "dynamodb" then
    .ok (some ("https://" ++ region ++ ".console.aws.amazon.com/dynamodbv2/home?region=" ++
      region ++ "#table?name=" ++ sub5 parts))
  else if service == "sqs" then
    (if truthy (outGet r "url") then .ok (some (jsToString (outGet r "url")))
     else .ok (some ("https://" ++ region ++ ".console.aws.amazon.com/sqs/v2/home?region=" ++
       region ++ "#/queues")))
  else if service == "sns" then
    .ok (some ("https://" ++ region ++ ".console.aws.amazon.com/sns/v3/home?region=" ++ region ++
      "#/topics/" ++ arn))
  else if service == "rds" then
    .ok (some ("https://" ++ region ++ ".console.aws.amazon.com/rds/home?region=" ++ region ++
      "#database:id=" ++ parts.getLastD "undefined" ++ ";is-cluster=true"))
  else if service == "states" then
    .ok (some ("https://" ++ region ++ ".console.aws.amazon.com/states/home?region=" ++ region ++
      "#/statemachines/view/" ++ arn))
  else if service == "logs" then
    .ok (some ("https://" ++ region ++ ".console.aws.amazon.com/cloudwatch/home?region=" ++
      region ++ "#logsV2:log-groups/log-group/" ++ jsEncodeURIComponent (partD parts 6)))
  else if service == "apigateway" then
    apigatewayLink region arn
  else if service == "iam" then
    .ok (some ("https://console.aws.amazon.com/iam/home?#/roles/details/" ++ iamRolePath parts))
  else if service == "events" then
    .ok (some ("https://" ++ region ++ ".console.aws.amazon.com/events/home?region=" ++ region ++
      "#/rules/" ++ sub5 parts))
  else if service == "cognito-idp" then
    .ok (some ("https://" ++ region ++ ".console.aws.amazon.com/cognito/v2/idp/user-pools/" ++
      sub5 parts ++ "/info?region=" ++ region))
  else if service == "secretsmanager" then
    .ok (some ("https://" ++ region ++ ".console.aws.amazon.com/secretsmanager/home?region=" ++
      region ++ "#!/secret?name=" ++ jsEncodeURIComponent (partD parts 6)))
  else if service == "acm" then
    .ok (some ("https://" ++ region ++ ".console.aws.amazon.com/acm/home?region=" ++ region ++
      "#/?uuid=" ++ sub5 parts))
  else if service == "cloudfront" then
    .ok (some ("https://console.aws.amazon.com/cloudfront/v3/home?#/distributions/" ++
      sub5 parts))
  else if service == "appsync" then
    .ok (some ("https://" ++ region ++ ".console.aws.amazon.com/appsync/home?region=" ++ region ++
      "#/apis/" ++ partD parts 5 ++ "/schema"))
  else if service == "kinesis" then
    .ok (some ("https://" ++ region ++ ".console.aws.amazon.com/kinesis/home?region=" ++ region ++
      "#/streams/details/" ++ sub5 parts ++ "/monitoring"))
  else if service == "ec2" then
    .ok (ec2Link region arn)
  else
    .ok (some (genericConsoleHome region))

/-- The service-dispatch switch over a well-formed (`arn:aws:`-prefixed)
ARN: dispatch on the 3rd colon field. -/
def serviceLink (r : Resource) (region arn : String) : Except Unit (Option String) :=
  serviceSwitch r region arn (jsSplit ":" arn) ((jsSplit ":" arn).getD 2 "")

/-- The link computed for the coerced ARN-or-id value: the service dispatch
for `arn:aws:`-prefixed strings, the bare-physical-id fallbacks for other
non-empty strings, `null` otherwise. -/
def linkForArnVal (r : Resource) (region : String) (arnV : JVal) :
    Except Unit (Option String) :=
  match arnV with
  | .vstr s =>
    if jsStartsWith s "arn:aws:" then serviceLink r region s
    else if s != "" then
      if jsIncludes (jsToLower r.type) "s3/bucket" then
        .ok (some ("https://s3.console.aws.amazon.com/s3/buckets/" ++ s ++ "?region=" ++ region))
      else if jsIncludes (jsToLower r.type) "lambda/function" then
        .ok (some ("https://" ++ region ++ ".console.aws.amazon.com/lambda/home?region=" ++
          region ++ "#/functions/" ++ s))
      else if jsIncludes (jsToLower r.type) "dynamodb/table" then
        .ok (some ("https://" ++ region ++ ".console.aws.amazon.com/dynamodbv2/home?region=" ++
          region ++ "#table?name=" ++ s))
      else .ok none
    else .ok none
  | _ => .ok none

/-- `getAwsConsoleLink` from the source, with potential throws made
explicit as `.error`. -/
def getAwsConsoleLinkE (r : Resource) : Except Unit (Option String) :=
  linkForArnVal r (regionOf r) (arnOrId r)

/-- The thrown-away-error view of the console link (the value the UI
consumes when no exception occurs). -/
def getAwsConsoleLink (r : Resource) : Option String :=
  match getAwsConsoleLinkE r with
  | .ok v => v
  | .error _ => none

/-! ## The scan endpoint (orphan reconciler)

From `POST /api/scan` in `src/server/index.ts`: the managed-identity set is
built from the declared state (or left empty when the state read fails),
and each observed resource is classified by exact membership then suffix
match. -/

/-- The fields of a declared state resource the scan reads (`r.id` and
`r.outputs?.arn`, both strings per the state schema). -/
structure DeclaredResource where
  id : Option String := none
  outputsArn : Option String := none

/-- An entry of `ResourceTagMappingList`: `ResourceARN?` and `Tags?`. -/
structure ObservedResource where
  arn : Option String := none
  tags : Option (List (String × String)) := none

/-- An orphan record of the scan response.  Fields that JS leaves
`undefined` (and JSON serialization drops) are `none`. -/
structure OrphanRec where
  arn : Option String
  type : Option String
  tags : List (String × String)
  name : Option String

/-- The scan response body. -/
structure ScanOut where
  totalFound : Nat
  managedCount : Nat
  orphans : List OrphanRec

/-- `Set.add`: insert once, keeping first-insertion order. -/
def setAdd (l : List String) (x : String) : List String :=
  if x ∈ l then l else l ++ [x]

/-- One step of the managed-id fold: `if (r.id) managedIds.add(r.id); if
(r.outputs?.arn) managedIds.add(r.outputs.arn)`. -/
def addManaged (acc : List String) (r : DeclaredResource) : List String :=
  let acc1 :=
    match r.id with
    | some s => if s != "" then setAdd acc s else acc
    | none => acc
  match r.outputsArn with
  | some s => if s != "" then setAdd acc1 s else acc1
  | none => acc1

/-- The managed-identity set, as the ordered list of its elements. -/
def buildManagedIds (rs : List DeclaredResource) : List String :=
  rs.foldl addManaged []

/-- `const arn = res.ResourceARN || ""`. -/
def observedArn (o : ObservedResource) : String :=
  match o.arn with
  | some a => a
  | none => ""

/-- The orphan filter: drop the resource when its ARN is in the managed set
or ends with one of the managed identities. -/
def isOrphan (ids : List String) (o : ObservedResource) : Bool :=
  let arn := observedArn o
  if arn ∈ ids then false
  else if ids.any (fun i => jsEndsWith arn i) then false
  else true

/-- `{...acc, [k]: v}`: set a key of a JS object, keeping the position of an
existing key and appending a new one. -/
def jsObjSet (acc : List (String × String)) (k v : String) : List (String × String) :=
  match acc with
  | [] => [(k, v)]
  | (k0, v0) :: rest =>
    if k0 == k then (k0, v) :: rest else (k0, v0) :: jsObjSet rest k v

/-- `o.Tags?.reduce((acc, t) => ({...acc, [t.Key]: t.Value}), {}) || {}`. -/
def flattenTags (o : ObservedResource) : List (String × String) :=
  match o.tags with
  | some ts => ts.foldl (fun acc kv => jsObjSet acc kv.fst kv.snd) []
  | none => []

/-- `o.Tags?.find(t => t.Key === "Name")?.Value`. -/
def nameTagValue (o : ObservedResource) : Option String :=
  match o.tags with
  | some ts =>
    match ts.find? (fun kv => kv.fst == "Name") with
    | some kv => some kv.snd
    | none => none
  | none => none

/-- The orphan record built for a surviving observed resource. -/
def mkOrphan (o : ObservedResource) : OrphanRec :=
  { arn := o.arn
    type :=
      match o.arn with
      | some a => (jsSplit ":" a).get? 2
      | none => none
    tags := flattenTags o
    name :=
      match nameTagValue o with
      | some v =>
        if v != "" then some v
        else
          match o.arn with
          | some a => some ((jsSplitColonSlash a).getLastD "")
          | none => none
      | none =>
        match o.arn with
        | some a => some ((jsSplitColonSlash a).getLastD "")
        | none => none }

/-- The managed-id set the scan ends up with: built from the declared state
when the read succeeds, empty when it fails (the catch branch). -/
def scanIds (stateRead : Except Unit (List DeclaredResource)) : List String :=
  match stateRead with
  | .ok rs => buildManagedIds rs
  | .error _ => []

/-- The whole reconciliation: the state read is an `Except` so that a failed
read (the catch branch that leaves `managedIds` empty) is representable. -/
def scanResult (stateRead : Except Unit (List DeclaredResource))
    (observed : List ObservedResource) : ScanOut :=
  let ids := scanIds stateRead
  { totalFound := observed.length
    managedCount := ids.length
    orphans := (observed.filter (fun o => isOrphan ids o)).map mkOrphan }

/-! ## The tree builder

`buildTree` from the source: a node map keyed by URN, a root/attach decision
per resource, a bottom-up visibility pass, and grouping of visible roots by
simple type.  The mutable node graph of the source is embedded by unfolding
each root into a tree value; the unfolding depth is bounded by a fuel
parameter, and stability in the fuel is exactly the termination statement
of the source's recursive visibility pass. -/

/-- The view mode parameter of `buildTree`. -/
inductive TreeMode where
  | tree : TreeMode
  | categorized : TreeMode
  | grouped : TreeMode
deriving DecidableEq

/-- A tree node: the wrapped resource, the match and visibility flags, and
the ordered children. -/
inductive TreeNode where
  | node (resource : Resource) (isMatch : Bool) (isVisible : Bool)
      (children : List TreeNode) : TreeNode

/-- The resource wrapped by a node. -/
def TreeNode.resOf : TreeNode → Resource
  | .node r _ _ _ => r

/-- The `isMatch` flag of a node. -/
def TreeNode.matchOf : TreeNode → Bool
  | .node _ m _ _ => m

/-- The `isVisible` flag of a node. -/
def TreeNode.visOf : TreeNode → Bool
  | .node _ _ v _ => v

/-- The children of a node. -/
def TreeNode.childrenOf : TreeNode → List TreeNode
  | .node _ _ _ cs => cs

/-- The URN of the resource wrapped by a node. -/
def urnOfN (t : TreeNode) : String :=
  t.resOf.urn

/-- The simple type of the resource wrapped by a node. -/
def tyOfN (t : TreeNode) : String :=
  getSimpleType t.resOf.type

/-- `r.parent` as the string JS sees (`undefined` behaves as `""` in the
truthiness tests below). -/
def parentStr (r : Resource) : String :=
  r.parent.getD ""

/-- Truthiness of `r.parent`. -/
def parentTruthy (r : Resource) : Bool :=
  parentStr r != ""

/-- The top-level stack-root marker tested with `includes`. -/
def stackRootMarker : String :=
  "pulumi:pulumi:Stack"

/-- The `shouldBeRoot` decision of the source, by mode. -/
def shouldBeRoot (mode : TreeMode) (r : Resource) : Bool :=
  match mode with
  | .grouped => true
  | .categorized =>
    PROMOTED_TYPES.contains (getSimpleType r.type) || !parentTruthy r ||
      jsIncludes (parentStr r) stackRootMarker
  | .tree => !parentTruthy r || jsIncludes (parentStr r) stackRootMarker

/-- `nodeMap.has(u)`. -/
def urnPresent (rs : List Resource) (u : String) : Bool :=
  rs.any (fun r => r.urn == u)

/-- Is the resource attached under its parent node
(`!shouldBeRoot && r.parent && nodeMap.has(r.parent)`)?  Otherwise it is
pushed to `roots`. -/
def attaches (rs : List Resource) (mode : TreeMode) (r : Resource) : Bool :=
  !shouldBeRoot mode r && parentTruthy r && urnPresent rs (parentStr r)

/-- The node-map entry for a URN: `Map.set` of the first pass keeps the last
resource with that URN. -/
def lastWithUrn (rs : List Resource) (u : String) : Option Resource :=
  (rs.filter (fun r => r.urn == u)).getLast?

/-- Placeholder for a URN absent from the node map (never consulted on the
URNs the builder produces). -/
def defaultResource : Resource :=
  { type := "", urn := "" }

/-- The resource stored at a node-map key. -/
def resOfD (rs : List Resource) (u : String) : Resource :=
  (lastWithUrn rs u).getD defaultResource

/-- The URNs pushed to `roots`, in input order. -/
def rootUrns (rs : List Resource) (mode : TreeMode) : List String :=
  (rs.filter (fun r => !attaches rs mode r)).map (fun r => r.urn)

/-- The URNs pushed to the child list of the node keyed `u`, in input
order. -/
def childUrns (rs : List Resource) (mode : TreeMode) (u : String) : List String :=
  (rs.filter (fun r => attaches rs mode r && parentStr r == u)).map (fun r => r.urn)

/-- Unfold the node graph into a tree from URN `u`, to depth `fuel`. -/
def buildNode (rs : List Resource) (matched : List String) (mode : TreeMode) :
    Nat → String → TreeNode
  | 0, u => .node (resOfD rs u) (matched.contains u) false []
  | fuel + 1, u =>
    .node (resOfD rs u) (matched.contains u) false
      ((childUrns rs mode u).map (buildNode rs matched mode fuel))

mutual

/-- `calculateVisibility`: the children are visited first, then
`isVisible := isMatch || childVisible`. -/
def calcVis : TreeNode → TreeNode
  | .node r m _ cs =>
    let cs2 := calcVisL cs
    .node r m (m || cs2.any TreeNode.visOf) cs2

def calcVisL : List TreeNode → List TreeNode
  | [] => []
  | t :: ts => calcVis t :: calcVisL ts

end

mutual

/-- All nodes of a tree, the root first. -/
def flatNodes : TreeNode → List TreeNode
  | .node r m v cs => .node r m v cs :: flatNodesL cs

def flatNodesL : List TreeNode → List TreeNode
  | [] => []
  | t :: ts => flatNodes t ++ flatNodesL ts

end

/-- A type group of the categorized view. -/
structure TypeGroup where
  typeName : String
  nodes : List TreeNode
  isVisible : Bool

/-- `groups[typeName].push(node)`, creating the key on first use. -/
def addToGroups (gs : List (String × List TreeNode)) (ty : String) (t : TreeNode) :
    List (String × List TreeNode) :=
  match gs with
  | [] => [(ty, [t])]
  | (k, ns) :: rest =>
    if k == ty then (k, ns ++ [t]) :: rest
    else (k, ns) :: addToGroups rest ty t

/-- One iteration of the grouping loop: invisible roots are skipped. -/
def groupStep (gs : List (String × List TreeNode)) (t : TreeNode) :
    List (String × List TreeNode) :=
  if t.visOf then addToGroups gs (tyOfN t) t else gs

/-- The `groups` record, as its ordered entry list. -/
def groupVisRoots (l : List TreeNode) : List (String × List TreeNode) :=
  l.foldl groupStep []

/-- Codepoint comparison of character lists. -/
def cmpChars : List Char → List Char → Ordering
  | [], [] => .eq
  | [], _ :: _ => .lt
  | _ :: _, [] => .gt
  | a :: as, b :: bs =>
    if a < b then .lt else if b < a then .gt else cmpChars as bs

/-- `String.prototype.localeCompare`, modelled for the ASCII-alphanumeric
type names the builder sorts: case-insensitive primary comparison with a
codepoint tiebreak. -/
def jsLocaleCompare (a b : String) : Ordering :=
  match cmpChars (jsToLower a).data (jsToLower b).data with
  | .eq => cmpChars a.data b.data
  | o => o

/-- The Boolean order the group sort uses
(`(a, b) => a.typeName.localeCompare(b.typeName)`). -/
def tgLeB (a b : TypeGroup) : Bool :=
  match jsLocaleCompare a.typeName b.typeName with
  | .gt => false
  | _ => true

/-- The forest of trees over the computed roots (before the visibility
pass), at unfolding depth `fuel`. -/
def forestF (rs : List Resource) (matched : List String) (mode : TreeMode)
    (fuel : Nat) : List TreeNode :=
  (rootUrns rs mode).map (buildNode rs matched mode fuel)

/-- The same forest after the visibility pass. -/
def visForestF (rs : List Resource) (matched : List String) (mode : TreeMode)
    (fuel : Nat) : List TreeNode :=
  (forestF rs matched mode fuel).map calcVis

/-- `buildTree` at explicit unfolding depth. -/
def buildTreeFuel (rs : List Resource) (matched : List String) (mode : TreeMode)
    (fuel : Nat) : List TypeGroup :=
  ((groupVisRoots (visForestF rs matched mode fuel)).map
    (fun kv => TypeGroup.mk kv.fst kv.snd (decide (0 < kv.snd.length)))).mergeSort tgLeB

/-- `buildTree` from the source (the unfolding depth `rs.length` is shown
sufficient for duplicate-free inputs in the totality theorem). -/
def buildTree (rs : List Resource) (matched : List String) (mode : TreeMode) :
    List TypeGroup :=
  buildTreeFuel rs matched mode rs.length

/-! ### The parent chain

`up` follows the one attach edge out of a node upward; iterating it
characterizes which nodes the root forest reaches. -/

/-- The parent URN a node is attached under, if any. -/
def up (rs : List Resource) (mode : TreeMode) (u : String) : Option String :=
  match lastWithUrn rs u with
  | some r => if attaches rs mode r then some (parentStr r) else none
  | none => none

/-- `j`-fold iteration of `up`. -/
def upIter (rs : List Resource) (mode : TreeMode) : Nat → String → Option String
  | 0, u => some u
  | j + 1, u =>
    match up rs mode u with
    | some p => upIter rs mode j p
    | none => none

/-- Occurrence count of urn `w` in the depth-`fuel` unfolding from `u`,
computed on the URN graph. -/
def occB (rs : List Resource) (mode : TreeMode) : Nat → String → String → Nat
  | 0, u, w => if u == w then 1 else 0
  | fuel + 1, u, w =>
    (if u == w then 1 else 0) +
      ((childUrns rs mode u).map (fun v => occB rs mode fuel v w)).sum

/-- Occurrence count of urn `w` among the nodes of a tree. -/
def occInTree (t : TreeNode) (w : String) : Nat :=
  ((flatNodes t).filter (fun a => urnOfN a == w)).length

/-- Occurrence count of urn `w` across the whole root forest. -/
def forestOcc (rs : List Resource) (matched : List String) (mode : TreeMode)
    (w : String) : Nat :=
  ((forestF rs matched mode rs.length).map (fun t => occInTree t w)).sum

/-- Does the `j`-th ancestor of `w` exist and head the root list? -/
def rootHit (rs : List Resource) (mode : TreeMode) (j : Nat) (w : String) : Bool :=
  match upIter rs mode j w with
  | some x => (rootUrns rs mode).contains x
  | none => false

/-- Does the parent chain of `w` reach a root in at most `rs.length`
steps? -/
def reachesRootWithin (rs : List Resource) (mode : TreeMode) (w : String) : Bool :=
  (List.range (rs.length + 1)).any (fun j => rootHit rs mode j w)

/-- One step of the key-order fold: the simple types of visible roots in
first-occurrence order. -/
def keysStep (ks : List String) (t : TreeNode) : List String :=
  if t.visOf then
    (if ks.contains (tyOfN t) then ks else ks ++ [tyOfN t])
  else ks

/-- The key order of the `groups` record. -/
def keysOf (l : List TreeNode) : List String :=
  l.foldl keysStep []

/-- The closed form of the `groups` record: each key paired with the
visible roots of that simple type, in encounter order. -/
def groupsShape (ks : List String) (pre : List TreeNode) :
    List (String × List TreeNode) :=
  ks.map (fun k => (k, pre.filter (fun t => t.visOf && tyOfN t == k)))

/-! ## Theorems: the orphan reconciler -/

/-- Membership after a set insertion. -/
theorem mem_setAdd {l : List String} {x y : String} (h : x ∈ setAdd l y) :
    x ∈ l ∨ x = y := by
  unfold setAdd at h
  split at h
  · exact Or.inl h
  · rcases List.mem_append.mp h with h1 | h1
    · exact Or.inl h1
    · exact Or.inr (List.mem_singleton.mp h1)

/-- Inserting a non-empty string preserves non-emptiness of the set. -/
theorem setAdd_nonempty {l : List String} {y : String}
    (hl : ∀ t ∈ l, t ≠ "") (hy : y ≠ "") : ∀ t ∈ setAdd l y, t ≠ "" := by
  intro t ht
  rcases mem_setAdd ht with h | h
  · exact hl t h
  · exact h ▸ hy

/-- A guarded conditional insertion of an optional string preserves
non-emptiness. -/
theorem condAdd_nonempty {acc : List String} (hacc : ∀ s ∈ acc, s ≠ "")
    (x : Option String) :
    ∀ s ∈ (match x with
            | some v => if v != "" then setAdd acc v else acc
            | none => acc), s ≠ "" := by
  rcases x with _ | v
  · exact hacc
  · by_cases hv : (v != "") = true
    · simp only [hv, if_true]
      refine setAdd_nonempty hacc ?_
      intro h
      subst h
      simp at hv
    · simp only [Bool.not_eq_true] at hv
      simp only [hv, Bool.false_eq_true, if_false]
      exact hacc

/-- One managed-id step only inserts non-empty strings. -/
theorem addManaged_nonempty {acc : List String} {r : DeclaredResource}
    (hacc : ∀ s ∈ acc, s ≠ "") : ∀ s ∈ addManaged acc r, s ≠ "" := by
  unfold addManaged
  exact condAdd_nonempty (condAdd_nonempty hacc r.id) r.outputsArn

/-- The managed-id fold preserves non-emptiness of the accumulated set. -/
theorem foldl_addManaged_nonempty :
    ∀ (rs : List DeclaredResource) (acc : List String),
      (∀ s ∈ acc, s ≠ "") → ∀ s ∈ rs.foldl addManaged acc, s ≠ "" := by
  intro rs
  induction rs with
  | nil => intro acc hacc s hs; exact hacc s hs
  | cons r rest ih =>
    intro acc hacc s hs
    exact ih (addManaged acc r) (addManaged_nonempty hacc) s hs

/-- C10: the managed-identity set built by the scan contains only non-empty
strings — `id` and `outputs.arn` are inserted only when truthy — so the empty
string is never available as a suffix-match identity. -/
theorem C10_managed_ids_nonempty (rs : List DeclaredResource) :
    (∀ s ∈ buildManagedIds rs, s ≠ "") ∧ "" ∉ buildManagedIds rs := by
  have h := foldl_addManaged_nonempty rs [] (by intro s hs; cases hs)
  exact ⟨h, fun hmem => h "" hmem rfl⟩

/-- Witness for C10 at a concrete declared resource. -/
theorem C10_managed_ids_nonempty_witness :
    "a" ∈ buildManagedIds [{ id := some "a" }] ∧ ("a" : String) ≠ "" :=
  ⟨by decide, (C10_managed_ids_nonempty [{ id := some "a" }]).1 "a" (by decide)⟩

/-- C3: an observed resource is kept (not an orphan) exactly when its ARN is
a member of the managed set or ends with one of its identities; in
particular the spec's suffix-match example (declared identity `my-bucket`,
observed ARN `arn:aws:s3:::my-bucket`) is not reported as an orphan. -/
theorem C3_orphan_classification :
    (∀ (ids : List String) (o : ObservedResource),
      isOrphan ids o = false ↔
        (observedArn o ∈ ids ∨ ∃ i ∈ ids, jsEndsWith (observedArn o) i = true)) ∧
    isOrphan ["my-bucket"] { arn := some "arn:aws:s3:::my-bucket" } = false := by
  refine ⟨fun ids o => ?_, by decide⟩
  unfold isOrphan
  by_cases h1 : observedArn o ∈ ids
  · simp [h1]
  · rw [if_neg h1]
    by_cases h2 : ids.any (fun i => jsEndsWith (observedArn o) i) = true
    · rw [if_pos h2]
      simp only [List.any_eq_true] at h2
      exact iff_of_true rfl (Or.inr h2)
    · rw [if_neg h2]
      simp only [List.any_eq_true] at h2
      refine iff_of_false (by simp) ?_
      rintro (h | ⟨i, hi, hsuf⟩)
      · exact h1 h
      · exact h2 ⟨i, hi, hsuf⟩

/-- C4: when the declared-state read fails the scan still completes, with an
empty managed set: every observed resource is an orphan, the orphan count
equals `totalFound`, and `managedCount` is zero. -/
theorem C4_degraded_scan (observed : List ObservedResource) :
    scanResult (.error ()) observed =
      { totalFound := observed.length, managedCount := 0,
        orphans := observed.map mkOrphan } ∧
    (scanResult (.error ()) observed).orphans.length =
      (scanResult (.error ()) observed).totalFound ∧
    (scanResult (.error ()) observed).managedCount = 0 := by
  have horph : ∀ o, isOrphan [] o = true := by
    intro o; simp [isOrphan]
  have hf : observed.filter (fun o => isOrphan [] o) = observed :=
    List.filter_eq_self.mpr (fun a _ => horph a)
  have h1 : scanResult (.error ()) observed =
      { totalFound := observed.length, managedCount := 0,
        orphans := observed.map mkOrphan } := by
    simp [scanResult, scanIds, hf]
  refine ⟨h1, ?_, ?_⟩
  · rw [h1]
    simp
  · rw [h1]

/-- C7 counterexample: an observed resource carrying a `Name` tag whose
value is the empty string.  The claim says `name` equals the Name tag when
present, but the code's truthiness test skips the empty value and falls
back to the ARN tail. -/
theorem C7_counterexample_empty_name_tag :
    nameTagValue { arn := some "arn:aws:s3:::b", tags := some [("Name", "")] } = some "" ∧
    (mkOrphan { arn := some "arn:aws:s3:::b", tags := some [("Name", "")] }).name =
      some "b" := by
  exact ⟨rfl, by decide⟩

/-- C7 (amended): `totalFound` is the observed count, `managedCount` the
managed-set size, orphans keep observed order, and each orphan carries the
3rd colon field of its ARN as `type`, the flattened tag map, and as `name`
the `Name` tag when present and non-empty, else the last path-or-colon
segment of the ARN. -/
theorem C7_amended_scan_fields (stateRead : Except Unit (List DeclaredResource))
    (observed : List ObservedResource) :
    (scanResult stateRead observed).totalFound = observed.length ∧
    (scanResult stateRead observed).managedCount = (scanIds stateRead).length ∧
    List.Sublist ((scanResult stateRead observed).orphans.map OrphanRec.arn)
      (observed.map ObservedResource.arn) ∧
    (∀ (o : ObservedResource) (a : String), o.arn = some a →
      (mkOrphan o).type = (jsSplit ":" a).get? 2) ∧
    (∀ o : ObservedResource, (mkOrphan o).tags = flattenTags o) ∧
    (∀ (o : ObservedResource) (v : String), nameTagValue o = some v → v ≠ "" →
      (mkOrphan o).name = some v) ∧
    (∀ (o : ObservedResource) (a : String), o.arn = some a →
      (nameTagValue o = none ∨ nameTagValue o = some "") →
      (mkOrphan o).name = some ((jsSplitColonSlash a).getLastD "")) := by
  refine ⟨rfl, rfl, ?_, ?_, ?_, ?_, ?_⟩
  · have harn : ∀ o : ObservedResource, (mkOrphan o).arn = o.arn := fun o => rfl
    have : (scanResult stateRead observed).orphans.map OrphanRec.arn =
        (observed.filter (fun o => isOrphan (scanIds stateRead) o)).map
          ObservedResource.arn := by
      simp only [scanResult, List.map_map]
      exact List.map_congr_left (fun a _ => rfl)
    rw [this]
    exact (List.filter_sublist observed).map ObservedResource.arn
  · intro o a h
    simp [mkOrphan, h]
  · intro o
    rfl
  · intro o v hv hne
    have hvb : (v != "") = true := by
      simp [hne]
    simp [mkOrphan, hv, hvb]
  · intro o a ha hv
    rcases hv with hv | hv <;> simp [mkOrphan, hv, ha]

/-- Witness for C7 at the specification's scenario inputs. -/
theorem C7_amended_scan_fields_witness :
    ((mkOrphan { arn := some "arn:aws:s3:::orphan-bucket", tags := some [] }).type = some "s3" ∧
      (mkOrphan { arn := some "arn:aws:lambda:us-east-1:1:function:fn-1", tags := some [("Name", "fn-1")] }).name = some "fn-1") ∧
    (jsSplit ":" "arn:aws:s3:::orphan-bucket").get? 2 = some "s3" := by
  refine ⟨⟨?_, ?_⟩, by decide⟩
  · exact (C7_amended_scan_fields (.error ())
      [{ arn := some "arn:aws:s3:::orphan-bucket", tags := some [] }]).2.2.2.1
      { arn := some "arn:aws:s3:::orphan-bucket", tags := some [] }
      "arn:aws:s3:::orphan-bucket" rfl
  · exact (C7_amended_scan_fields (.error ()) []).2.2.2.2.2.1
      { arn := some "arn:aws:lambda:us-east-1:1:function:fn-1", tags := some [("Name", "fn-1")] }
      "fn-1" rfl (by decide)

/-! ## Theorems: display-id helper -/

/-- The outputs branch of `getResourceId` agrees with the candidate chain of
the display-id specification. -/
theorem idFromOutputs_eq (r : Resource) :
    idFromOutputs r =
      (match displayCandidate { r with id := none } with
       | some s => s
       | none => "N/A") := by
  unfold idFromOutputs displayCandidate
  rcases r with ⟨ty, urn, id, outputs, parent⟩
  rcases outputs with _ | kvs
  · rfl
  · rcases h : usableArn kvs with _ | a
    · by_cases hnm : truthy (jgetD kvs "name") = true
      · simp [h, hnm]
      · simp only [Bool.not_eq_true] at hnm
        simp [h, hnm]
    · simp [h, arnTail]

/-- C9 counterexample: a resource whose `id` is present but the empty
string.  The claim's preference order would return `r.id`, but the code's
truthiness test skips it and the URN tail is returned. -/
theorem C9_counterexample_empty_id :
    ({ type := "t", urn := "a::x", id := some "" } : Resource).id = some "" ∧
    getResourceId { type := "t", urn := "a::x", id := some "" } = "x" := by
  exact ⟨rfl, by decide⟩

/-- C9 (amended): `getResourceId` returns, in order of preference, `r.id`
when it is a non-empty string; else the last colon-segment of a non-empty
non-ciphertext `outputs.arn` string (the whole ARN when that segment is
empty); else `outputs.name` rendered safely when truthy; and whenever the
candidate so obtained is absent or the literal `"N/A"`, the last
`::`-segment of the URN (or `"N/A"` when that is empty); API-gateway route
resources with a truthy `routeKey` append `" : <routeKey>"`. -/
theorem C9_amended_display_id (r : Resource) : getResourceId r = resourceDisplayId r := by
  unfold getResourceId resourceDisplayId
  have hbase : (match r.id with
      | some s => if s != "" then s else idFromOutputs r
      | none => idFromOutputs r) =
      (match displayCandidate r with | some s => s | none => "N/A") := by
    rcases hid : r.id with _ | s
    · rw [idFromOutputs_eq r]
      have : displayCandidate { r with id := none } = displayCandidate r := by
        unfold displayCandidate
        rw [hid]
      rw [this]
    · by_cases hs : (s != "") = true
      · have : displayCandidate r = some s := by
          unfold displayCandidate
          rw [hid]
          simp [hs]
        rw [this]
        simp [hs]
      · simp only [Bool.not_eq_true] at hs
        have : displayCandidate r = displayCandidate { r with id := none } := by
          unfold displayCandidate
          rw [hid]
          simp [hs]
        rw [this, ← idFromOutputs_eq r]
        simp [hs]
  rw [hbase]
  rfl

/-! ## Theorems: console-link helper -/

/-- The split worker never returns an empty list. -/
theorem jsSplitGo_ne_nil (sep : List Char) :
    ∀ (fuel : Nat) (acc s : List Char), jsSplitGo sep fuel acc s ≠ [] := by
  intro fuel
  induction fuel with
  | zero => intro acc s; simp [jsSplitGo]
  | succ n ih =>
    intro acc s
    unfold jsSplitGo
    split
    · simp
    · match s with
      | [] => simp
      | c :: cs => exact ih (c :: acc) cs

/-- When the separator occurs in the input, the split has at least two
segments. -/
theorem jsSplitGo_length_ge2 {sep : List Char} (hsep : sep ≠ []) :
    ∀ (fuel : Nat) (acc s : List Char), s.length < fuel →
      containsSeq sep s = true → 2 ≤ (jsSplitGo sep fuel acc s).length := by
  intro fuel
  induction fuel with
  | zero => intro acc s hlt; exact fun _ => absurd hlt (Nat.not_lt_zero _)
  | succ n ih =>
    intro acc s hlt hcon
    unfold jsSplitGo
    by_cases hpre : sep.isPrefixOf s = true
    · have hne : (!sep.isEmpty) = true := by
        cases sep
        · exact absurd rfl hsep
        · rfl
      rw [if_pos (by rw [hpre, hne]; rfl)]
      have := jsSplitGo_ne_nil sep n [] (s.drop sep.length)
      match hres : jsSplitGo sep n [] (s.drop sep.length) with
      | [] => exact absurd hres this
      | x :: xs => simp
    · have hcond : ¬(sep.isPrefixOf s && !sep.isEmpty) = true := by
        simp only [Bool.and_eq_true]
        rintro ⟨h1, _⟩
        exact hpre h1
      rw [if_neg hcond]
      match s with
      | [] =>
        exfalso
        unfold containsSeq at hcon
        rw [hcon] at hpre
        exact hpre rfl
      | c :: cs =>
        have hcon2 : containsSeq sep cs = true := by
          unfold containsSeq at hcon
          rcases Bool.or_eq_true_iff.mp hcon with h | h
          · exact absurd h hpre
          · exact h
        have hlt2 : cs.length < n := by
          simp only [List.length_cons] at hlt
          omega
        exact ih (c :: acc) cs hlt2 hcon2

/-- `includes` guarantees the split has a second segment. -/
theorem jsIncludes_split_ge2 {s m : String} (h : jsIncludes s m = true)
    (hm : m.data ≠ []) : 2 ≤ (jsSplit m s).length := by
  unfold jsSplit jsSplitChars
  rw [List.length_map]
  exact jsSplitGo_length_ge2 hm (s.data.length + 1) [] s.data (Nat.lt_succ_self _) h

/-- A list with two or more elements has a second element. -/
theorem exists_get1 {l : List String} (h : 2 ≤ l.length) :
    ∃ x, l.get? 1 = some x := by
  match l, h with
  | a :: b :: rest, _ => exact ⟨b, rfl⟩

/-- The guarded segment access of the API-gateway branch cannot fail. -/
theorem segAfter_ok {m arn : String} (h : jsIncludes arn m = true)
    (hm : m.data ≠ []) : ∃ x, segAfter m arn = .ok x := by
  obtain ⟨x, hx⟩ := exists_get1 (jsIncludes_split_ge2 h hm)
  refine ⟨(jsSplit "/" x).getD 0 x, ?_⟩
  unfold segAfter
  rw [hx]

/-- The API-gateway branch never throws. -/
theorem apigatewayLink_ok (region arn : String) :
    ∃ v, apigatewayLink region arn = .ok v := by
  unfold apigatewayLink
  by_cases h1 : jsIncludes arn "/apis/" = true
  · rcases segAfter_ok h1 (by decide) with ⟨x, hx⟩
    rw [if_pos h1, hx]
    exact ⟨_, rfl⟩
  rw [if_neg h1]
  by_cases h2 : jsIncludes arn "/restapis/" = true
  · rcases segAfter_ok h2 (by decide) with ⟨x, hx⟩
    rw [if_pos h2, hx]
    exact ⟨_, rfl⟩
  rw [if_neg h2]
  by_cases h3 : jsIncludes arn "/domainnames/" = true
  · rcases segAfter_ok h3 (by decide) with ⟨x, hx⟩
    rw [if_pos h3, hx]
    exact ⟨_, rfl⟩
  rw [if_neg h3]
  by_cases h4 : jsIncludes arn "/vpclinks/" = true
  · rcases segAfter_ok h4 (by decide) with ⟨x, hx⟩
    rw [if_pos h4, hx]
    exact ⟨_, rfl⟩
  rw [if_neg h4]
  by_cases h5 : jsIncludes arn "/usageplans/" = true
  · rcases segAfter_ok h5 (by decide) with ⟨x, hx⟩
    rw [if_pos h5, hx]
    exact ⟨_, rfl⟩
  rw [if_neg h5]
  by_cases h6 : jsIncludes arn "/apikeys/" = true
  · rcases segAfter_ok h6 (by decide) with ⟨x, hx⟩
    rw [if_pos h6, hx]
    exact ⟨_, rfl⟩
  rw [if_neg h6]
  exact ⟨none, rfl⟩

/-- The service dispatch never throws. -/
theorem serviceSwitch_ok (r : Resource) (region arn : String)
    (parts : List String) (service : String) :
    ∃ v, serviceSwitch r region arn parts service = .ok v := by
  unfold serviceSwitch
  by_cases h1 : (service == "lambda") = true
  · rw [if_pos h1]; exact ⟨_, rfl⟩
  rw [if_neg h1]
  by_cases h2 : (service == "s3") = true
  · rw [if_pos h2]; exact ⟨_, rfl⟩
  rw [if_neg h2]
  by_cases h3 : (service == "dynamodb") = true
  · rw [if_pos h3]; exact ⟨_, rfl⟩
  rw [if_neg h3]
  by_cases h4 : (service == "sqs") = true
  · rw [if_pos h4]
    by_cases hu : truthy (outGet r "url") = true
    · rw [if_pos hu]; exact ⟨_, rfl⟩
    · rw [if_neg hu]; exact ⟨_, rfl⟩
  rw [if_neg h4]
  by_cases h5 : (service == "sns") = true
  · rw [if_pos h5]; exact ⟨_, rfl⟩
  rw [if_neg h5]
  by_cases h6 : (service == "rds") = true
  · rw [if_pos h6]; exact ⟨_, rfl⟩
  rw [if_neg h6]
  by_cases h7 : (service == "states") = true
  · rw [if_pos h7]; exact ⟨_, rfl⟩
  rw [if_neg h7]
  by_cases h8 : (service == "logs") = true
  · rw [if_pos h8]; exact ⟨_, rfl⟩
  rw [if_neg h8]
  by_cases h9 : (service == "apigateway") = true
  · rw [if_pos h9]; exact apigatewayLink_ok region arn
  rw [if_neg h9]
  by_cases h10 : (service == "iam") = true
  · rw [if_pos h10]; exact ⟨_, rfl⟩
  rw [if_neg h10]
  by_cases h11 : (service == "events") = true
  · rw [if_pos h11]; exact ⟨_, rfl⟩
  rw [if_neg h11]
  by_cases h12 : (service == "cognito-idp") = true
  · rw [if_pos h12]; exact ⟨_, rfl⟩
  rw [if_neg h12]
  by_cases h13 : (service == "secretsmanager") = true
  · rw [if_pos h13]; exact ⟨_, rfl⟩
  rw [if_neg h13]
  by_cases h14 : (service == "acm") = true
  · rw [if_pos h14]; exact ⟨_, rfl⟩
  rw [if_neg h14]
  by_cases h15 : (service == "cloudfront") = true
  · rw [if_pos h15]; exact ⟨_, rfl⟩
  rw [if_neg h15]
  by_cases h16 : (service == "appsync") = true
  · rw [if_pos h16]; exact ⟨_, rfl⟩
  rw [if_neg h16]
  by_cases h17 : (service == "kinesis") = true
  · rw [if_pos h17]; exact ⟨_, rfl⟩
  rw [if_neg h17]
  by_cases h18 : (service == "ec2") = true
  · rw [if_pos h18]; exact ⟨_, rfl⟩
  rw [if_neg h18]
  exact ⟨_, rfl⟩

/-- The service dispatch never throws. -/
theorem serviceLink_ok (r : Resource) (region arn : String) :
    ∃ v, serviceLink r region arn = .ok v :=
  serviceSwitch_ok r region arn (jsSplit ":" arn) ((jsSplit ":" arn).getD 2 "")

/-- An unlisted service falls to the default branch: the generic console
home link. -/
theorem serviceSwitch_unlisted (r : Resource) (region arn : String)
    (parts : List String) (service : String) (hs : service ∉ serviceTable) :
    serviceSwitch r region arn parts service =
      .ok (some (genericConsoleHome region)) := by
  unfold serviceSwitch
  rw [if_neg (fun hb => hs (by rw [eq_of_beq hb]; decide))]
  rw [if_neg (fun hb => hs (by rw [eq_of_beq hb]; decide))]
  rw [if_neg (fun hb => hs (by rw [eq_of_beq hb]; decide))]
  rw [if_neg (fun hb => hs (by rw [eq_of_beq hb]; decide))]
  rw [if_neg (fun hb => hs (by rw [eq_of_beq hb]; decide))]
  rw [if_neg (fun hb => hs (by rw [eq_of_beq hb]; decide))]
  rw [if_neg (fun hb => hs (by rw [eq_of_beq hb]; decide))]
  rw [if_neg (fun hb => hs (by rw [eq_of_beq hb]; decide))]
  rw [if_neg (fun hb => hs (by rw [eq_of_beq hb]; decide))]
  rw [if_neg (fun hb => hs (by rw [eq_of_beq hb]; decide))]
  rw [if_neg (fun hb => hs (by rw [eq_of_beq hb]; decide))]
  rw [if_neg (fun hb => hs (by rw [eq_of_beq hb]; decide))]
  rw [if_neg (fun hb => hs (by rw [eq_of_beq hb]; decide))]
  rw [if_neg (fun hb => hs (by rw [eq_of_beq hb]; decide))]
  rw [if_neg (fun hb => hs (by rw [eq_of_beq hb]; decide))]
  rw [if_neg (fun hb => hs (by rw [eq_of_beq hb]; decide))]
  rw [if_neg (fun hb => hs (by rw [eq_of_beq hb]; decide))]
  rw [if_neg (fun hb => hs (by rw [eq_of_beq hb]; decide))]

/-- C8 counterexample: a resource with a malformed (non-`arn:aws:`) ARN
string whose type contains `s3/bucket` gets a bare-id bucket link, not
`null`. -/
theorem C8_counterexample_bare_id_link :
    jsStartsWith "garbage" "arn:aws:" = false ∧
    getAwsConsoleLink { type := "aws:s3/bucket:BucketV2", urn := "u", outputs := some [("arn", JVal.vstr "garbage")] } =
      some "https://s3.console.aws.amazon.com/s3/buckets/garbage?region=us-west-2" := by
  exact ⟨by decide, by decide⟩

/-- C8 (amended): the console-link helper never throws; an
`arn:aws:`-prefixed ARN whose service segment is not in the dispatch table
yields the generic console home link; a missing ARN-and-id (empty or
non-string value) yields `null`; a non-`arn:aws:` string yields a bare-id
link only for the `s3/bucket`, `lambda/function`, `dynamodb/table` type
fallbacks and `null` otherwise. -/
theorem C8_amended_console_link :
    (∀ r : Resource, ∃ v, getAwsConsoleLinkE r = .ok v) ∧
    (∀ (r : Resource) (s : String), arnOrId r = .vstr s →
      jsStartsWith s "arn:aws:" = true →
      ((jsSplit ":" s).getD 2 "") ∉ serviceTable →
      getAwsConsoleLinkE r = .ok (some (genericConsoleHome (regionOf r)))) ∧
    (∀ r : Resource, arnOrId r = .vstr "" → getAwsConsoleLinkE r = .ok none) ∧
    (∀ (r : Resource) (v : JVal), arnOrId r = v →
      (match v with | .vstr _ => False | _ => True) →
      getAwsConsoleLinkE r = .ok none) ∧
    (∀ (r : Resource) (s : String), arnOrId r = .vstr s → s ≠ "" →
      jsStartsWith s "arn:aws:" = false →
      jsIncludes (jsToLower r.type) "s3/bucket" = false →
      jsIncludes (jsToLower r.type) "lambda/function" = false →
      jsIncludes (jsToLower r.type) "dynamodb/table" = false →
      getAwsConsoleLinkE r = .ok none) ∧
    (∀ (r : Resource) (s : String), arnOrId r = .vstr s → s ≠ "" →
      jsStartsWith s "arn:aws:" = false →
      jsIncludes (jsToLower r.type) "s3/bucket" = true →
      getAwsConsoleLinkE r =
        .ok (some ("https://s3.console.aws.amazon.com/s3/buckets/" ++ s ++ "?region=" ++
          regionOf r))) := by
  refine ⟨?_, ?_, ?_, ?_, ?_, ?_⟩
  · intro r
    unfold getAwsConsoleLinkE
    rcases haro : arnOrId r with s | n | b | _ | kvs | xs
    all_goals try exact ⟨none, rfl⟩
    simp only [linkForArnVal]
    by_cases hst : jsStartsWith s "arn:aws:" = true
    · rw [if_pos hst]
      exact serviceLink_ok r (regionOf r) s
    · rw [if_neg hst]
      by_cases hne : (s != "") = true
      · rw [if_pos hne]
        by_cases h1 : jsIncludes (jsToLower r.type) "s3/bucket" = true
        · rw [if_pos h1]; exact ⟨_, rfl⟩
        rw [if_neg h1]
        by_cases h2 : jsIncludes (jsToLower r.type) "lambda/function" = true
        · rw [if_pos h2]; exact ⟨_, rfl⟩
        rw [if_neg h2]
        by_cases h3 : jsIncludes (jsToLower r.type) "dynamodb/table" = true
        · rw [if_pos h3]; exact ⟨_, rfl⟩
        rw [if_neg h3]
        exact ⟨none, rfl⟩
      · rw [if_neg hne]
        exact ⟨none, rfl⟩
  · intro r s haro hst hserv
    unfold getAwsConsoleLinkE
    rw [haro]
    simp only [linkForArnVal]
    rw [if_pos hst]
    unfold serviceLink
    exact serviceSwitch_unlisted r (regionOf r) s (jsSplit ":" s) _ hserv
  · intro r haro
    unfold getAwsConsoleLinkE
    rw [haro]
    simp only [linkForArnVal]
    rw [if_neg (by decide), if_neg (by decide)]
  · intro r v haro hnv
    unfold getAwsConsoleLinkE
    rw [haro]
    cases v with
    | vstr s => exact hnv.elim
    | vnum n => rfl
    | vbool b => rfl
    | vnull => rfl
    | vobj kvs => rfl
    | varr xs => rfl
  · intro r s haro hne hst h1 h2 h3
    unfold getAwsConsoleLinkE
    rw [haro]
    simp only [linkForArnVal]
    rw [if_neg (by rw [hst]; exact Bool.false_ne_true),
      if_pos (by simpa using hne),
      if_neg (by rw [h1]; exact Bool.false_ne_true),
      if_neg (by rw [h2]; exact Bool.false_ne_true),
      if_neg (by rw [h3]; exact Bool.false_ne_true)]
  · intro r s haro hne hst h1
    unfold getAwsConsoleLinkE
    rw [haro]
    simp only [linkForArnVal]
    rw [if_neg (by rw [hst]; exact Bool.false_ne_true),
      if_pos (by simpa using hne), if_pos h1]

/-- Witness for C8: an unrecognized service gets the generic console home
link. -/
theorem C8_amended_console_link_witness :
    getAwsConsoleLinkE { type := "t", urn := "u", outputs := some [("arn", JVal.vstr "arn:aws:zzz:u:1:x")] } =
      .ok (some (genericConsoleHome (regionOf { type := "t", urn := "u", outputs := some [("arn", JVal.vstr "arn:aws:zzz:u:1:x")] }))) := by
  exact C8_amended_console_link.2.1
    { type := "t", urn := "u", outputs := some [("arn", JVal.vstr "arn:aws:zzz:u:1:x")] }
    "arn:aws:zzz:u:1:x" rfl (by decide) (by decide)

/-! ## Theorems: the tree builder — node map and parent chain -/

/-- What a node-map hit tells us. -/
theorem lastWithUrn_mem {rs : List Resource} {u : String} {r : Resource}
    (h : lastWithUrn rs u = some r) : r ∈ rs ∧ r.urn = u := by
  unfold lastWithUrn at h
  have hmem := List.mem_of_mem_getLast? h
  have := List.mem_filter.mp hmem
  exact ⟨this.1, by simpa using this.2⟩

/-- With duplicate-free URNs the filter for a member's URN is a
singleton. -/
theorem filter_urn_nodup {rs : List Resource} {r : Resource}
    (hn : (rs.map Resource.urn).Nodup) (hr : r ∈ rs) :
    rs.filter (fun x => x.urn == r.urn) = [r] := by
  induction rs with
  | nil => cases hr
  | cons a rest ih =>
    simp only [List.map_cons, List.nodup_cons] at hn
    rcases List.mem_cons.mp hr with h | h
    · subst h
      have hrest : rest.filter (fun x => x.urn == r.urn) = [] := by
        apply List.filter_eq_nil_iff.mpr
        intro x hx hbeq
        exact hn.1 (List.mem_map.mpr ⟨x, hx, eq_of_beq hbeq⟩)
      simp [List.filter_cons, hrest]
    · have hne : ¬(a.urn == r.urn) = true := by
        intro hbeq
        exact hn.1 (List.mem_map.mpr ⟨r, h, (eq_of_beq hbeq).symm⟩)
      simp only [List.filter_cons]
      rw [if_neg hne]
      exact ih hn.2 h

/-- With duplicate-free URNs the node map returns each member at its own
URN. -/
theorem lastWithUrn_nodup {rs : List Resource} {r : Resource}
    (hn : (rs.map Resource.urn).Nodup) (hr : r ∈ rs) :
    lastWithUrn rs r.urn = some r := by
  unfold lastWithUrn
  rw [filter_urn_nodup hn hr]
  rfl

/-- Roots have no attach edge upward. -/
theorem up_root_none {rs : List Resource} {mode : TreeMode} {u : String}
    (hn : (rs.map Resource.urn).Nodup) (hu : u ∈ rootUrns rs mode) :
    up rs mode u = none := by
  unfold rootUrns at hu
  rcases List.mem_map.mp hu with ⟨r, hrf, hru⟩
  have hmem := List.mem_filter.mp hrf
  have hatt : attaches rs mode r = false := by
    simpa using hmem.2
  subst hru
  unfold up
  simp only [lastWithUrn_nodup hn hmem.1, hatt, Bool.false_eq_true, if_false]

/-- With duplicate-free URNs, the child URNs of `u` are exactly the URNs
with attach edge to `u`. -/
theorem mem_childUrns_iff {rs : List Resource} {mode : TreeMode} {u v : String}
    (hn : (rs.map Resource.urn).Nodup) :
    v ∈ childUrns rs mode u ↔ up rs mode v = some u := by
  constructor
  · intro hv
    unfold childUrns at hv
    rcases List.mem_map.mp hv with ⟨r, hrf, hru⟩
    have hmem := List.mem_filter.mp hrf
    have hcond := hmem.2
    simp only [Bool.and_eq_true, beq_iff_eq] at hcond
    subst hru
    unfold up
    simp only [lastWithUrn_nodup hn hmem.1, hcond.1, if_true, hcond.2]
  · intro hv
    unfold up at hv
    rcases hlast : lastWithUrn rs v with _ | r
    · rw [hlast] at hv; cases hv
    · rw [hlast] at hv
      simp only at hv
      rcases hatt : attaches rs mode r with _ | _
      · rw [hatt] at hv; simp at hv
      · rw [hatt] at hv
        simp only [if_true, Option.some.injEq] at hv
        obtain ⟨hrmem, hrurn⟩ := lastWithUrn_mem hlast
        unfold childUrns
        refine List.mem_map.mpr ⟨r, List.mem_filter.mpr ⟨hrmem, ?_⟩, hrurn⟩
        simp [hatt, hv]

/-- Child URN lists are duplicate-free when the input is. -/
theorem childUrns_nodup {rs : List Resource} {mode : TreeMode} {u : String}
    (hn : (rs.map Resource.urn).Nodup) : (childUrns rs mode u).Nodup :=
  hn.sublist ((List.filter_sublist rs).map Resource.urn)

/-- Root URN lists are duplicate-free when the input is. -/
theorem rootUrns_nodup {rs : List Resource} {mode : TreeMode}
    (hn : (rs.map Resource.urn).Nodup) : (rootUrns rs mode).Nodup :=
  hn.sublist ((List.filter_sublist rs).map Resource.urn)

/-- Child URNs are URNs of the collection. -/
theorem childUrns_subset_urns {rs : List Resource} {mode : TreeMode} {u v : String}
    (hv : v ∈ childUrns rs mode u) : v ∈ rs.map Resource.urn := by
  unfold childUrns at hv
  rcases List.mem_map.mp hv with ⟨r, hrf, hru⟩
  exact List.mem_map.mpr ⟨r, (List.mem_filter.mp hrf).1, hru⟩

/-- Root URNs are URNs of the collection. -/
theorem rootUrns_subset_urns {rs : List Resource} {mode : TreeMode} {u : String}
    (hu : u ∈ rootUrns rs mode) : u ∈ rs.map Resource.urn := by
  unfold rootUrns at hu
  rcases List.mem_map.mp hu with ⟨r, hrf, hru⟩
  exact List.mem_map.mpr ⟨r, (List.mem_filter.mp hrf).1, hru⟩

/-- The target of an attach edge is a URN of the collection. -/
theorem up_target_mem {rs : List Resource} {mode : TreeMode} {v p : String}
    (h : up rs mode v = some p) : p ∈ rs.map Resource.urn := by
  unfold up at h
  rcases hlast : lastWithUrn rs v with _ | r
  · rw [hlast] at h; cases h
  · rw [hlast] at h
    simp only at h
    rcases hatt : attaches rs mode r with _ | _
    · rw [hatt] at h; simp at h
    · rw [hatt] at h
      simp only [if_true, Option.some.injEq] at h
      have hpres : urnPresent rs (parentStr r) = true := by
        have h2 := hatt
        unfold attaches at h2
        simp only [Bool.and_eq_true] at h2
        exact h2.2
      rcases List.any_eq_true.mp hpres with ⟨x, hx, hbeq⟩
      exact h ▸ List.mem_map.mpr ⟨x, hx, eq_of_beq hbeq⟩

/-- The source of an attach edge is a URN of the collection. -/
theorem up_source_mem {rs : List Resource} {mode : TreeMode} {v p : String}
    (h : up rs mode v = some p) : v ∈ rs.map Resource.urn := by
  unfold up at h
  rcases hlast : lastWithUrn rs v with _ | r
  · rw [hlast] at h; cases h
  · obtain ⟨hrmem, hrurn⟩ := lastWithUrn_mem hlast
    exact List.mem_map.mpr ⟨r, hrmem, hrurn⟩

/-- Unfolding a successor chain over a present edge. -/
theorem upIter_succ_some {rs : List Resource} {mode : TreeMode} {u p : String}
    (h : up rs mode u = some p) (j : Nat) :
    upIter rs mode (j + 1) u = upIter rs mode j p := by
  simp only [upIter, h]

/-- Unfolding a successor chain over a missing edge. -/
theorem upIter_succ_none {rs : List Resource} {mode : TreeMode} {u : String}
    (h : up rs mode u = none) (j : Nat) :
    upIter rs mode (j + 1) u = none := by
  simp only [upIter, h]

/-- Splitting an iterated chain. -/
theorem upIter_add (rs : List Resource) (mode : TreeMode) :
    ∀ (a b : Nat) (u : String),
      upIter rs mode (a + b) u = (upIter rs mode a u).bind (upIter rs mode b) := by
  intro a
  induction a with
  | zero => intro b u; simp [upIter, Nat.zero_add]
  | succ n ih =>
    intro b u
    have heq : n + 1 + b = (n + b) + 1 := by omega
    rw [heq]
    rcases hup : up rs mode u with _ | p
    · rw [upIter_succ_none hup, upIter_succ_none hup]
      rfl
    · rw [upIter_succ_some hup, upIter_succ_some hup]
      exact ih b p

/-- A single chain step. -/
theorem upIter_one (rs : List Resource) (mode : TreeMode) (u : String) :
    upIter rs mode 1 u = up rs mode u := by
  unfold upIter
  rcases hup : up rs mode u with _ | p
  · rfl
  · rfl

/-- Peeling the last step of a chain. -/
theorem upIter_succ_r (rs : List Resource) (mode : TreeMode) (j : Nat) (w : String) :
    upIter rs mode (j + 1) w = (upIter rs mode j w).bind (up rs mode) := by
  rw [upIter_add rs mode j 1 w]
  rcases h : upIter rs mode j w with _ | x
  · rfl
  · simp [upIter_one]

/-! ## Theorems: counting in the unfolded forest -/

/-- Summing a pointwise sum of two maps. -/
theorem listSum_map_add {α : Type} (l : List α) (f g : α → Nat) :
    (l.map (fun x => f x + g x)).sum = (l.map f).sum + (l.map g).sum := by
  induction l with
  | nil => rfl
  | cons a rest ih =>
    simp only [List.map_cons, List.sum_cons, ih]
    omega

/-- A map to zero sums to zero. -/
theorem listSum_map_zero {α : Type} (l : List α) :
    (l.map (fun _ => (0 : Nat))).sum = 0 := by
  induction l with
  | nil => rfl
  | cons a rest ih => simp [ih]

/-- Exchanging a double list sum. -/
theorem listSum_comm {α β : Type} (l₁ : List α) (l₂ : List β) (g : α → β → Nat) :
    (l₁.map (fun a => (l₂.map (g a)).sum)).sum =
      (l₂.map (fun b => (l₁.map (fun a => g a b)).sum)).sum := by
  induction l₁ with
  | nil =>
    simp only [List.map_nil, List.sum_nil]
    exact (listSum_map_zero l₂).symm
  | cons a rest ih =>
    simp only [List.map_cons, List.sum_cons, ih]
    rw [← listSum_map_add l₂ (g a) (fun b => (rest.map (fun x => g x b)).sum)]

/-- Summing the indicator of membership hits over a duplicate-free list. -/
theorem listSum_single_hit (x : Option String) :
    ∀ (l : List String), l.Nodup →
      (l.map (fun v => if x = some v then 1 else 0)).sum =
        (match x with
         | some v => if v ∈ l then 1 else 0
         | none => 0) := by
  rcases x with _ | v
  · intro l _
    have hz : ∀ a ∈ l, (if (none : Option String) = some a then 1 else 0) = 0 := by
      intro a _
      simp
    rw [List.map_congr_left hz, listSum_map_zero]
  · intro l
    induction l with
    | nil => intro _; simp
    | cons a rest ih =>
      intro hl
      simp only [List.nodup_cons] at hl
      simp only [List.map_cons, List.sum_cons]
      by_cases hva : v = a
      · subst hva
        rw [if_pos rfl]
        have hz : ∀ u ∈ rest, (if some v = some u then 1 else 0) = 0 := by
          intro u hu
          have : v ≠ u := fun h => hl.1 (h ▸ hu)
          simp [this]
        rw [List.map_congr_left hz, listSum_map_zero]
        simp
      · rw [if_neg (by simp [hva])]
        rw [ih hl.2]
        simp [List.mem_cons, hva]

/-- The indicator sum of an at-most-once predicate over a duplicate-free
list is its any-indicator. -/
theorem listSum_indicator_unique (l : List Nat) (p : Nat → Bool) (hl : l.Nodup)
    (huniq : ∀ a b, a ∈ l → b ∈ l → p a = true → p b = true → a = b) :
    (l.map (fun j => if p j then 1 else 0)).sum = if l.any p then 1 else 0 := by
  induction l with
  | nil => rfl
  | cons a rest ih =>
    simp only [List.nodup_cons] at hl
    rcases hpa : p a with _ | _
    · have hrest : (rest.map (fun j => if p j then 1 else 0)).sum =
          if rest.any p then 1 else 0 :=
        ih hl.2 (fun x y hx hy hpx hpy =>
          huniq x y (List.mem_cons_of_mem a hx) (List.mem_cons_of_mem a hy) hpx hpy)
      simp [hpa, hrest]
    · have hz : (rest.map (fun j => if p j then 1 else 0)).sum = 0 := by
        have hall : ∀ j ∈ rest, (if p j then 1 else 0) = 0 := by
          intro j hj
          rcases hpj : p j with _ | _
          · simp
          · exfalso
            have := huniq j a (List.mem_cons_of_mem a hj) (List.mem_cons_self a rest) hpj hpa
            exact hl.1 (this ▸ hj)
        rw [List.map_congr_left hall, listSum_map_zero]
      simp [hpa, hz]

/-- Filtered length distributes over `flatMap`. -/
theorem length_filter_flatMap {α β : Type} (l : List α) (g : α → List β) (q : β → Bool) :
    ((l.flatMap g).filter q).length = (l.map (fun a => ((g a).filter q).length)).sum := by
  induction l with
  | nil => rfl
  | cons a rest ih =>
    simp only [List.flatMap_cons, List.filter_append, List.length_append,
      List.map_cons, List.sum_cons, ih]

/-- The URN-graph occurrence count agrees with the indicator sum over the
ancestor chain: with duplicate-free URNs, `w` occurs in the depth-`fuel`
unfolding below `u` once for each chain length `j ≤ fuel` with
`upIter j w = u`. -/
theorem occB_eq_chain_count {rs : List Resource} {mode : TreeMode}
    (hn : (rs.map Resource.urn).Nodup) :
    ∀ (fuel : Nat) (u w : String),
      occB rs mode fuel u w =
        ((List.range (fuel + 1)).map
          (fun j => if upIter rs mode j w = some u then 1 else 0)).sum := by
  intro fuel
  induction fuel with
  | zero =>
    intro u w
    simp only [occB, List.range_succ, List.range_zero, List.nil_append,
      List.map_cons, List.map_nil, List.sum_cons, List.sum_nil]
    simp only [upIter]
    by_cases h : u = w
    · subst h
      simp
    · rw [if_neg (by simpa using h),
        if_neg (by simp only [Option.some.injEq]; exact fun hh => h hh.symm)]
      rfl
  | succ n ih =>
    intro u w
    have hshift : List.range (n + 2) = 0 :: (List.range (n + 1)).map Nat.succ :=
      List.range_succ_eq_map (n + 1)
    rw [show occB rs mode (n + 1) u w =
      (if u == w then 1 else 0) +
        ((childUrns rs mode u).map (fun v => occB rs mode n v w)).sum from rfl]
    rw [hshift]
    simp only [List.map_cons, List.sum_cons, List.map_map]
    have hhead : (if upIter rs mode 0 w = some u then 1 else 0) =
        (if u == w then 1 else 0) := by
      simp only [upIter]
      by_cases h : u = w
      · subst h
        simp
      · rw [if_neg (by simp only [Option.some.injEq]; exact fun hh => h hh.symm),
          if_neg (by simpa using h)]
    have hchild : ((childUrns rs mode u).map (fun v => occB rs mode n v w)).sum =
        ((List.range (n + 1)).map
          (fun j => if upIter rs mode (j + 1) w = some u then 1 else 0)).sum := by
      calc ((childUrns rs mode u).map (fun v => occB rs mode n v w)).sum
          = ((childUrns rs mode u).map (fun v =>
              ((List.range (n + 1)).map
                (fun j => if upIter rs mode j w = some v then 1 else 0)).sum)).sum := by
            rw [List.map_congr_left (fun v _ => ih v w)]
        _ = ((List.range (n + 1)).map (fun j =>
              ((childUrns rs mode u).map
                (fun v => if upIter rs mode j w = some v then 1 else 0)).sum)).sum :=
            listSum_comm (childUrns rs mode u) (List.range (n + 1)) _
        _ = ((List.range (n + 1)).map
              (fun j => if upIter rs mode (j + 1) w = some u then 1 else 0)).sum := by
            apply congrArg
            apply List.map_congr_left
            intro j _
            rw [listSum_single_hit (upIter rs mode j w) (childUrns rs mode u)
              (childUrns_nodup hn)]
            rw [upIter_succ_r]
            rcases hx : upIter rs mode j w with _ | x
            · simp
            · show (if x ∈ childUrns rs mode u then 1 else 0) =
                (if up rs mode x = some u then 1 else 0)
              by_cases hmem : x ∈ childUrns rs mode u
              · rw [if_pos hmem, if_pos ((mem_childUrns_iff hn).mp hmem)]
              · rw [if_neg hmem,
                  if_neg (fun h => hmem ((mem_childUrns_iff hn).mpr h))]
    rw [hhead, hchild]
    apply congrArg
    apply congrArg
    apply List.map_congr_left
    intro j _
    rfl

/-- `flatNodesL` is `flatMap` of `flatNodes`. -/
theorem flatNodesL_eq : ∀ l : List TreeNode, flatNodesL l = l.flatMap flatNodes := by
  intro l
  induction l with
  | nil => rfl
  | cons t ts ih =>
    rw [List.flatMap_cons, ← ih]
    rfl

/-- The node map returns a resource carrying the looked-up URN. -/
theorem resOfD_urn {rs : List Resource} {u : String}
    (hu : u ∈ rs.map Resource.urn) : (resOfD rs u).urn = u := by
  rcases List.mem_map.mp hu with ⟨r, hr, hru⟩
  have hne : rs.filter (fun x => x.urn == u) ≠ [] := by
    intro hnil
    have := List.filter_eq_nil_iff.mp hnil r hr
    exact this (by simp [hru])
  rcases hlast : lastWithUrn rs u with _ | r0
  · unfold lastWithUrn at hlast
    exact absurd (List.getLast?_eq_none_iff.mp hlast) hne
  · have := (lastWithUrn_mem hlast).2
    unfold resOfD
    rw [hlast]
    exact this

/-- The tree occurrence count is the URN-graph occurrence count. -/
theorem occInTree_buildNode {rs : List Resource} {matched : List String}
    {mode : TreeMode} :
    ∀ (fuel : Nat) (u w : String), u ∈ rs.map Resource.urn →
      occInTree (buildNode rs matched mode fuel u) w = occB rs mode fuel u w := by
  intro fuel
  induction fuel with
  | zero =>
    intro u w hu
    unfold occInTree buildNode flatNodes occB
    simp only [flatNodesL]
    rw [List.filter_cons]
    have : urnOfN (TreeNode.node (resOfD rs u) (matched.contains u) false []) = u := by
      unfold urnOfN TreeNode.resOf
      exact resOfD_urn hu
    rw [this]
    by_cases h : u = w
    · subst h
      simp
    · rw [if_neg (by simpa using h), if_neg (by simpa using h)]
      rfl
  | succ n ih =>
    intro u w hu
    unfold occInTree buildNode flatNodes
    rw [List.filter_cons]
    have hurn : urnOfN (TreeNode.node (resOfD rs u) (matched.contains u) false
        ((childUrns rs mode u).map (buildNode rs matched mode n))) = u := by
      unfold urnOfN TreeNode.resOf
      exact resOfD_urn hu
    rw [hurn, flatNodesL_eq]
    have hlen : (((((childUrns rs mode u).map (buildNode rs matched mode n)).flatMap
          flatNodes).filter (fun a => urnOfN a == w)).length) =
        ((childUrns rs mode u).map (fun v => occB rs mode n v w)).sum := by
      rw [List.flatMap_map]
      rw [length_filter_flatMap (childUrns rs mode u)
        (fun v => flatNodes (buildNode rs matched mode n v)) (fun a => urnOfN a == w)]
      apply congrArg
      apply List.map_congr_left
      intro v hv
      exact ih v w (childUrns_subset_urns hv)
    by_cases h : u = w
    · rw [if_pos (by simpa using h)]
      rw [show occB rs mode (n + 1) u w =
        (if u == w then 1 else 0) +
          ((childUrns rs mode u).map (fun v => occB rs mode n v w)).sum from rfl]
      rw [if_pos (by simpa using h)]
      simp only [List.length_cons]
      omega
    · rw [if_neg (by simpa using h)]
      rw [show occB rs mode (n + 1) u w =
        (if u == w then 1 else 0) +
          ((childUrns rs mode u).map (fun v => occB rs mode n v w)).sum from rfl]
      rw [if_neg (by simpa using h), hlen]
      omega

/-- Unpacking a root hit. -/
theorem rootHit_iff {rs : List Resource} {mode : TreeMode} {j : Nat} {w : String} :
    rootHit rs mode j w = true ↔
      ∃ x, upIter rs mode j w = some x ∧ x ∈ rootUrns rs mode := by
  unfold rootHit
  rcases hx : upIter rs mode j w with _ | x
  · simp
  · show (rootUrns rs mode).contains x = true ↔ _
    constructor
    · intro hc
      rcases List.contains_iff_exists_mem_beq.mp hc with ⟨y, hy, hbeq⟩
      exact ⟨x, rfl, (eq_of_beq hbeq) ▸ hy⟩
    · rintro ⟨y, hy, hyr⟩
      cases hy
      exact List.contains_iff_exists_mem_beq.mpr ⟨x, hyr, by simp⟩

/-- A chain can hit the root list at most at one length. -/
theorem rootHit_unique {rs : List Resource} {mode : TreeMode}
    (hn : (rs.map Resource.urn).Nodup) {w : String} {j j' : Nat}
    (h1 : rootHit rs mode j w = true) (h2 : rootHit rs mode j' w = true) :
    j = j' := by
  rcases rootHit_iff.mp h1 with ⟨x, hx, hxr⟩
  rcases rootHit_iff.mp h2 with ⟨x', hx', hxr'⟩
  rcases Nat.le_total j j' with hle | hle
  · obtain ⟨d, hd⟩ := Nat.le.dest hle
    rcases d with _ | e
    · omega
    · exfalso
      rw [← hd, upIter_add rs mode j (e + 1) w, hx] at hx'
      simp only [Option.some_bind] at hx'
      rw [upIter_succ_none (up_root_none hn hxr) e] at hx'
      cases hx'
  · obtain ⟨d, hd⟩ := Nat.le.dest hle
    rcases d with _ | e
    · omega
    · exfalso
      rw [← hd, upIter_add rs mode j' (e + 1) w, hx'] at hx
      simp only [Option.some_bind] at hx
      rw [upIter_succ_none (up_root_none hn hxr') e] at hx
      cases hx

/-- The total occurrence count of a URN across the root forest is one when
its parent chain reaches a root within `rs.length` steps and zero
otherwise. -/
theorem forestOcc_eq {rs : List Resource} {matched : List String} {mode : TreeMode}
    (hn : (rs.map Resource.urn).Nodup) (w : String) :
    forestOcc rs matched mode w = if reachesRootWithin rs mode w then 1 else 0 := by
  unfold forestOcc forestF
  rw [List.map_map]
  simp only [Function.comp_def]
  rw [List.map_congr_left (fun u hu =>
    occInTree_buildNode rs.length u w (rootUrns_subset_urns hu))]
  rw [List.map_congr_left (fun u _ => occB_eq_chain_count hn rs.length u w)]
  rw [listSum_comm (rootUrns rs mode) (List.range (rs.length + 1))
    (fun u j => if upIter rs mode j w = some u then 1 else 0)]
  have h3 : ∀ j ∈ List.range (rs.length + 1),
      ((rootUrns rs mode).map
        (fun u => if upIter rs mode j w = some u then 1 else 0)).sum =
      (if rootHit rs mode j w then 1 else 0) := by
    intro j _
    rw [listSum_single_hit (upIter rs mode j w) (rootUrns rs mode) (rootUrns_nodup hn)]
    unfold rootHit
    rcases hx : upIter rs mode j w with _ | x
    · simp
    · show (if x ∈ rootUrns rs mode then 1 else 0) =
        (if (rootUrns rs mode).contains x = true then 1 else 0)
      by_cases hmem : x ∈ rootUrns rs mode
      · rw [if_pos hmem,
          if_pos (List.contains_iff_exists_mem_beq.mpr ⟨x, hmem, by simp⟩)]
      · rw [if_neg hmem, if_neg ?_]
        intro hc
        rcases List.contains_iff_exists_mem_beq.mp hc with ⟨y, hy, hbeq⟩
        exact hmem ((eq_of_beq hbeq) ▸ hy)
  rw [List.map_congr_left h3]
  rw [listSum_indicator_unique (List.range (rs.length + 1))
    (fun j => rootHit rs mode j w) (List.nodup_range _)
    (fun a b _ _ ha hb => rootHit_unique hn ha hb)]
  rfl

/-- A chain into a root visits pairwise distinct URNs, so its length is
bounded by the collection size. -/
theorem chain_to_root_le {rs : List Resource} {mode : TreeMode}
    (hn : (rs.map Resource.urn).Nodup) {u : String} (hu : u ∈ rootUrns rs mode)
    {w : String} {j : Nat} (h : upIter rs mode j w = some u) :
    j + 1 ≤ rs.length := by
  have hpref : ∀ a, a ≤ j → ∃ x, upIter rs mode a w = some x := by
    intro a ha
    obtain ⟨d, hd⟩ := Nat.le.dest ha
    rcases hx : upIter rs mode a w with _ | x
    · exfalso
      rw [← hd, upIter_add rs mode a d w, hx] at h
      cases h
    · exact ⟨x, rfl⟩
  have hroot : rootHit rs mode j w = true := rootHit_iff.mpr ⟨u, h, hu⟩
  have huniq : ∀ a b, a ≤ j → b ≤ j →
      upIter rs mode a w = upIter rs mode b w → a = b := by
    intro a b ha hb heq
    obtain ⟨x, hx⟩ := hpref b hb
    have hxa : upIter rs mode a w = some x := heq.trans hx
    have hdb : b + (j - b) = j := by omega
    have hju : upIter rs mode (j - b) x = some u := by
      have := h
      rw [← hdb, upIter_add rs mode b (j - b) w, hx] at this
      simpa using this
    have hau : upIter rs mode (a + (j - b)) w = some u := by
      rw [upIter_add rs mode a (j - b) w, hxa]
      simpa using hju
    have h1 : rootHit rs mode (a + (j - b)) w = true := rootHit_iff.mpr ⟨u, hau, hu⟩
    have := rootHit_unique hn h1 hroot
    omega
  have hnodupL : ((List.range (j + 1)).map
      (fun a => (upIter rs mode a w).getD "")).Nodup := by
    refine List.Nodup.map_on ?_ (List.nodup_range _)
    intro a ha b hb hgd
    have ha' : a ≤ j := by
      have := List.mem_range.mp ha
      omega
    have hb' : b ≤ j := by
      have := List.mem_range.mp hb
      omega
    obtain ⟨xa, hxa⟩ := hpref a ha'
    obtain ⟨xb, hxb⟩ := hpref b hb'
    rw [hxa, hxb] at hgd
    simp only [Option.getD_some] at hgd
    exact huniq a b ha' hb' (by rw [hxa, hxb, hgd])
  have hsubL : ((List.range (j + 1)).map
      (fun a => (upIter rs mode a w).getD "")) ⊆ rs.map Resource.urn := by
    intro y hy
    rcases List.mem_map.mp hy with ⟨a, ha, hay⟩
    have ha' : a ≤ j := by
      have := List.mem_range.mp ha
      omega
    obtain ⟨x, hx⟩ := hpref a ha'
    rw [hx] at hay
    simp only [Option.getD_some] at hay
    subst hay
    by_cases haj : a = j
    · subst haj
      rw [hx] at h
      cases h
      exact rootUrns_subset_urns hu
    · have ha2 : a + 1 ≤ j := by omega
      obtain ⟨z, hz⟩ := hpref (a + 1) ha2
      rw [upIter_succ_r, hx] at hz
      simp only [Option.some_bind] at hz
      exact up_source_mem hz
  have hlen := (List.subperm_of_subset hnodupL hsubL).length_le
  rw [List.length_map, List.length_range, List.length_map] at hlen
  exact hlen

/-- A node with no children unfolds to the same leaf at every depth. -/
theorem buildNode_no_children {rs : List Resource} {matched : List String}
    {mode : TreeMode} {u : String} (hcu : childUrns rs mode u = []) (fuel : Nat) :
    buildNode rs matched mode fuel u =
      TreeNode.node (resOfD rs u) (matched.contains u) false [] := by
  cases fuel with
  | zero => rfl
  | succ n =>
    unfold buildNode
    rw [hcu]
    rfl

/-- Unfolding is stable once the depth exceeds the height of the subgraph
below `u`. -/
theorem buildNode_stab {rs : List Resource} {matched : List String} {mode : TreeMode}
    (hn : (rs.map Resource.urn).Nodup) :
    ∀ (h : Nat) (u : String),
      (∀ (w : String) (j : Nat), upIter rs mode j w = some u → j ≤ h) →
      ∀ (f f' : Nat), h ≤ f → h ≤ f' →
        buildNode rs matched mode f u = buildNode rs matched mode f' u := by
  intro h
  induction h with
  | zero =>
    intro u hht f f' _ _
    have hcu : childUrns rs mode u = [] := by
      rcases hcu : childUrns rs mode u with _ | ⟨v, rest⟩
      · rfl
      · exfalso
        have hv : v ∈ childUrns rs mode u := by
          rw [hcu]
          exact List.mem_cons_self v rest
        have hup := (mem_childUrns_iff hn).mp hv
        have : upIter rs mode 1 v = some u := by
          rw [upIter_one]
          exact hup
        have := hht v 1 this
        omega
    rw [buildNode_no_children hcu, buildNode_no_children hcu]
  | succ h ih =>
    intro u hht f f' hf hf'
    rcases f with _ | f0
    · omega
    rcases f' with _ | f1
    · omega
    unfold buildNode
    have hch : ∀ v ∈ childUrns rs mode u,
        buildNode rs matched mode f0 v = buildNode rs matched mode f1 v := by
      intro v hv
      have hup := (mem_childUrns_iff hn).mp hv
      refine ih v ?_ f0 f1 (by omega) (by omega)
      intro w j hj
      have : upIter rs mode (j + 1) w = some u := by
        rw [upIter_succ_r, hj]
        simpa using hup
      have := hht w (j + 1) this
      omega
    rw [List.map_congr_left hch]

/-- Above depth `rs.length` the unfolded forest is stable: this is the
termination of the source's recursive visibility traversal. -/
theorem forestF_stab {rs : List Resource} {matched : List String} {mode : TreeMode}
    (hn : (rs.map Resource.urn).Nodup) {fuel : Nat} (hf : rs.length ≤ fuel) :
    forestF rs matched mode fuel = forestF rs matched mode rs.length := by
  unfold forestF
  apply List.map_congr_left
  intro u hu
  have hb : ∀ (w : String) (j : Nat), upIter rs mode j w = some u → j ≤ rs.length - 1 := by
    intro w j hj
    have := chain_to_root_le hn hu hj
    omega
  exact buildNode_stab hn (rs.length - 1) u hb fuel rs.length (by omega) (by omega)

/-- Stability of the whole output in the unfolding depth. -/
theorem buildTreeFuel_stab {rs : List Resource} {matched : List String}
    {mode : TreeMode} (hn : (rs.map Resource.urn).Nodup) {fuel : Nat}
    (hf : rs.length ≤ fuel) :
    buildTreeFuel rs matched mode fuel = buildTree rs matched mode := by
  unfold buildTree buildTreeFuel visForestF
  rw [forestF_stab hn hf]

unseal List.merge List.mergeSort in
/-- C1 counterexample: a single resource with no parent and no search
match.  It becomes a (non-visible) root, and the returned forest of
TypeGroups is empty — the resource appears in no TreeNode of the output,
contradicting "every input resource appears in exactly one TreeNode across
the resulting forest of TypeGroups". -/
theorem C1_counterexample_invisible_root :
    buildTree [{ type := "sst:aws:Vpc", urn := "uA" }] [] TreeMode.tree = [] := by
  rfl

/-- C1 (amended): for every resource collection with pairwise-distinct
URNs, `buildTree` terminates (the depth-bounded unfolding of the node graph
is stable at any depth of at least the collection size), and each input
resource appears exactly once across the full forest of trees over the
computed roots when its parent chain reaches a root within `rs.length`
steps, and not at all otherwise (parent-chain cycles); the returned
TypeGroups then keep only the visible subset of that forest. -/
theorem C1_amended_tree_totality (rs : List Resource) (matched : List String)
    (mode : TreeMode) (hn : (rs.map Resource.urn).Nodup) :
    (∀ fuel, rs.length ≤ fuel →
      forestF rs matched mode fuel = forestF rs matched mode rs.length ∧
      buildTreeFuel rs matched mode fuel = buildTree rs matched mode) ∧
    (∀ r ∈ rs, forestOcc rs matched mode r.urn =
      if reachesRootWithin rs mode r.urn then 1 else 0) := by
  refine ⟨fun fuel hf => ⟨forestF_stab hn hf, buildTreeFuel_stab hn hf⟩, ?_⟩
  intro r _
  exact forestOcc_eq hn r.urn

/-- Witness for C1 on the specification's two-resource scenario. -/
theorem C1_amended_tree_totality_witness :
    (([{ type := "sst:aws:Vpc", urn := "uA" },
       { type := "aws:ec2/subnet:Subnet", urn := "uB", parent := some "uA" }] :
      List Resource).map Resource.urn).Nodup ∧
    forestOcc [{ type := "sst:aws:Vpc", urn := "uA" },
      { type := "aws:ec2/subnet:Subnet", urn := "uB", parent := some "uA" }] []
      TreeMode.tree "uB" = 1 := by
  refine ⟨by decide, ?_⟩
  have h := (C1_amended_tree_totality
    [{ type := "sst:aws:Vpc", urn := "uA" },
     { type := "aws:ec2/subnet:Subnet", urn := "uB", parent := some "uA" }] []
    TreeMode.tree (by decide)).2
    { type := "aws:ec2/subnet:Subnet", urn := "uB", parent := some "uA" }
    (by simp)
  exact h.trans (by decide)

unseal List.merge List.mergeSort in
/-- C2: the self-parented resource of the failing input is attached as its
own child, never pushed to `roots`, and the whole output is empty even
though the resource is search-matched — it is silently dropped, not
promoted to root as the specification requires. -/
theorem C2_cycle_node_dropped :
    buildTree [{ type := "custom:x:T", urn := "uC", parent := some "uC" }] ["uC"]
      TreeMode.tree = [] ∧
    rootUrns [{ type := "custom:x:T", urn := "uC", parent := some "uC" }]
      TreeMode.tree = [] ∧
    childUrns [{ type := "custom:x:T", urn := "uC", parent := some "uC" }]
      TreeMode.tree "uC" = ["uC"] := by
  exact ⟨rfl, by decide, by decide⟩

/-! ## Theorems: grouping of visible roots -/

/-- Reduction of `addToGroups` at an empty record. -/
theorem addToGroups_nil {ty : String} {t : TreeNode} :
    addToGroups [] ty t = [(ty, [t])] := rfl

/-- Reduction of `addToGroups` at a matching head entry. -/
theorem addToGroups_cons_hit {k ty : String} {ns : List TreeNode}
    {rest : List (String × List TreeNode)} {t : TreeNode} (h : k = ty) :
    addToGroups ((k, ns) :: rest) ty t = (k, ns ++ [t]) :: rest := by
  simp only [addToGroups]
  rw [if_pos (by simp [h])]

/-- Reduction of `addToGroups` at a non-matching head entry. -/
theorem addToGroups_cons_miss {k ty : String} {ns : List TreeNode}
    {rest : List (String × List TreeNode)} {t : TreeNode} (h : ¬k = ty) :
    addToGroups ((k, ns) :: rest) ty t = (k, ns) :: addToGroups rest ty t := by
  simp only [addToGroups]
  rw [if_neg (by simpa using h)]

/-- Reduction of `groupsShape` at a key cons. -/
theorem groupsShape_cons {k : String} {ks : List String} {pre : List TreeNode} :
    groupsShape (k :: ks) pre =
      (k, pre.filter (fun x => x.visOf && tyOfN x == k)) :: groupsShape ks pre := rfl

/-- A snoc that fails a filter drops out. -/
theorem filter_snoc_miss {pre : List TreeNode} {t : TreeNode}
    {q : TreeNode → Bool} (h : q t = false) :
    (pre ++ [t]).filter q = pre.filter q := by
  rw [List.filter_append]
  simp [List.filter_cons, h]

/-- A snoc that passes a filter is kept at the end. -/
theorem filter_snoc_hit {pre : List TreeNode} {t : TreeNode}
    {q : TreeNode → Bool} (h : q t = true) :
    (pre ++ [t]).filter q = pre.filter q ++ [t] := by
  rw [List.filter_append]
  simp [List.filter_cons, h]

/-- Appending an invisible root changes no bucket. -/
theorem groupsShape_snoc_invisible {ks : List String} {pre : List TreeNode}
    {t : TreeNode} (hv : t.visOf = false) :
    groupsShape ks (pre ++ [t]) = groupsShape ks pre := by
  unfold groupsShape
  apply List.map_congr_left
  intro k _
  rw [filter_snoc_miss (by simp [hv])]

/-- Pushing a visible root whose type key already exists extends exactly
its own bucket. -/
theorem addToGroups_shape_mem {pre : List TreeNode} {t : TreeNode}
    (hv : t.visOf = true) :
    ∀ {ks : List String}, ks.Nodup → tyOfN t ∈ ks →
      addToGroups (groupsShape ks pre) (tyOfN t) t = groupsShape ks (pre ++ [t]) := by
  intro ks
  induction ks with
  | nil => intro _ hmem; cases hmem
  | cons k rest ih =>
    intro hks hmem
    simp only [List.nodup_cons] at hks
    rw [groupsShape_cons, groupsShape_cons]
    by_cases hk : k = tyOfN t
    · rw [addToGroups_cons_hit hk]
      have hne : ∀ k0 ∈ rest, ¬(tyOfN t = k0) := by
        intro k0 hk0 h
        exact hks.1 (hk ▸ h ▸ hk0)
      have htail : groupsShape rest (pre ++ [t]) = groupsShape rest pre := by
        unfold groupsShape
        apply List.map_congr_left
        intro k0 hk0
        rw [filter_snoc_miss (by simp [hne k0 hk0])]
      rw [htail]
      rw [filter_snoc_hit (by simp [hv, hk])]
    · rw [addToGroups_cons_miss hk]
      have hmem2 : tyOfN t ∈ rest := by
        rcases List.mem_cons.mp hmem with h | h
        · exact absurd h.symm hk
        · exact h
      have hne : ¬(tyOfN t = k) := fun h => hk h.symm
      rw [filter_snoc_miss (q := fun x => x.visOf && tyOfN x == k) (by simp [hne])]
      rw [ih hks.2 hmem2]

/-- Pushing a visible root whose type key is new appends a fresh bucket. -/
theorem addToGroups_shape_new {pre : List TreeNode} {t : TreeNode}
    (hv : t.visOf = true)
    (hpre : pre.filter (fun x => x.visOf && tyOfN x == tyOfN t) = []) :
    ∀ {ks : List String}, tyOfN t ∉ ks →
      addToGroups (groupsShape ks pre) (tyOfN t) t =
        groupsShape (ks ++ [tyOfN t]) (pre ++ [t]) := by
  intro ks
  induction ks with
  | nil =>
    intro _
    show addToGroups [] (tyOfN t) t = groupsShape [tyOfN t] (pre ++ [t])
    rw [addToGroups_nil, groupsShape_cons]
    rw [filter_snoc_hit (by simp [hv])]
    rw [hpre]
    rfl
  | cons k rest ih =>
    intro hnot
    have hk : ¬k = tyOfN t := fun h => hnot (h ▸ List.mem_cons_self k rest)
    rw [groupsShape_cons, List.cons_append, groupsShape_cons]
    rw [addToGroups_cons_miss hk]
    have hne : ¬(tyOfN t = k) := fun h => hk h.symm
    rw [filter_snoc_miss (q := fun x => x.visOf && tyOfN x == k) (by simp [hne])]
    rw [ih (fun h => hnot (List.mem_cons_of_mem k h))]

/-- `keysStep` never removes keys. -/
theorem keysStep_subset {ks : List String} {t : TreeNode} {x : String}
    (h : x ∈ ks) : x ∈ keysStep ks t := by
  unfold keysStep
  by_cases hv : t.visOf = true
  · rw [if_pos hv]
    by_cases hc : ks.contains (tyOfN t) = true
    · rw [if_pos hc]; exact h
    · rw [if_neg hc]; exact List.mem_append_left _ h
  · rw [if_neg hv]; exact h

/-- Keys accumulate along the fold. -/
theorem foldl_keysStep_subset :
    ∀ (l : List TreeNode) (ks : List String) (x : String), x ∈ ks →
      x ∈ l.foldl keysStep ks := by
  intro l
  induction l with
  | nil => intro ks x h; exact h
  | cons t rest ih => intro ks x h; exact ih (keysStep ks t) x (keysStep_subset h)

/-- A visible node's type is a key after its own step. -/
theorem mem_keysStep_self {ks : List String} {t : TreeNode} (hv : t.visOf = true) :
    tyOfN t ∈ keysStep ks t := by
  unfold keysStep
  rw [if_pos hv]
  by_cases hc : ks.contains (tyOfN t) = true
  · rw [if_pos hc]; exact List.elem_iff.mp hc
  · rw [if_neg hc]; exact List.mem_append_right _ (List.mem_singleton.mpr rfl)

/-- Every visible node of the list contributes its type to the key fold. -/
theorem foldl_keysStep_cov :
    ∀ (l : List TreeNode) (ks : List String) (t : TreeNode), t ∈ l →
      t.visOf = true → tyOfN t ∈ l.foldl keysStep ks := by
  intro l
  induction l with
  | nil => intro ks t h; cases h
  | cons u rest ih =>
    intro ks t ht hv
    rcases List.mem_cons.mp ht with h | h
    · subst h
      exact foldl_keysStep_subset rest (keysStep ks t) _ (mem_keysStep_self hv)
    · exact ih (keysStep ks u) t h hv

/-- `keysStep` preserves key distinctness. -/
theorem keysStep_nodup {ks : List String} {t : TreeNode} (h : ks.Nodup) :
    (keysStep ks t).Nodup := by
  unfold keysStep
  by_cases hv : t.visOf = true
  · rw [if_pos hv]
    by_cases hc : ks.contains (tyOfN t) = true
    · rw [if_pos hc]; exact h
    · rw [if_neg hc]
      rw [List.nodup_append]
      refine ⟨h, List.nodup_singleton _, ?_⟩
      intro x hx hxt
      rw [List.mem_singleton.mp hxt] at hx
      exact hc (List.elem_iff.mpr hx)
  · rw [if_neg hv]; exact h

/-- The key fold preserves distinctness. -/
theorem foldl_keysStep_nodup :
    ∀ (l : List TreeNode) (ks : List String), ks.Nodup →
      (l.foldl keysStep ks).Nodup := by
  intro l
  induction l with
  | nil => intro ks h; exact h
  | cons t rest ih => intro ks h; exact ih _ (keysStep_nodup h)

/-- The grouping fold computes the closed bucket form: starting from the
closed form of a processed prefix, folding the remaining roots yields the
closed form of the whole list. -/
theorem foldl_groupStep_shape :
    ∀ (l : List TreeNode) (ks : List String) (pre : List TreeNode), ks.Nodup →
      (∀ x ∈ pre, x.visOf = true → tyOfN x ∈ ks) →
      l.foldl groupStep (groupsShape ks pre) =
        groupsShape (l.foldl keysStep ks) (pre ++ l) := by
  intro l
  induction l with
  | nil => intro ks pre _ _; simp
  | cons t rest ih =>
    intro ks pre hks hcov
    simp only [List.foldl_cons]
    by_cases hv : t.visOf = true
    · by_cases hmem : tyOfN t ∈ ks
      · have hkeys : keysStep ks t = ks := by
          unfold keysStep
          rw [if_pos hv, if_pos (List.elem_iff.mpr hmem)]
        have hstep : groupStep (groupsShape ks pre) t = groupsShape ks (pre ++ [t]) := by
          unfold groupStep
          rw [if_pos hv]
          exact addToGroups_shape_mem hv hks hmem
        have hcov2 : ∀ x ∈ pre ++ [t], x.visOf = true → tyOfN x ∈ ks := by
          intro x hx hvx
          rcases List.mem_append.mp hx with h | h
          · exact hcov x h hvx
          · rw [List.mem_singleton.mp h]; exact hmem
        rw [hstep, hkeys, ih ks (pre ++ [t]) hks hcov2, List.append_assoc,
          List.singleton_append]
      · have hkeys : keysStep ks t = ks ++ [tyOfN t] := by
          unfold keysStep
          have hc : ¬ks.contains (tyOfN t) = true := fun h => hmem (List.elem_iff.mp h)
          rw [if_pos hv, if_neg hc]
        have hfil : pre.filter (fun x => x.visOf && tyOfN x == tyOfN t) = [] := by
          rw [List.filter_eq_nil_iff]
          intro x hx hq
          simp only [Bool.and_eq_true, beq_iff_eq] at hq
          exact hmem (hq.2 ▸ hcov x hx hq.1)
        have hstep : groupStep (groupsShape ks pre) t =
            groupsShape (ks ++ [tyOfN t]) (pre ++ [t]) := by
          unfold groupStep
          rw [if_pos hv]
          exact addToGroups_shape_new hv hfil hmem
        have hks2 : (ks ++ [tyOfN t]).Nodup := by
          rw [List.nodup_append]
          refine ⟨hks, List.nodup_singleton _, ?_⟩
          intro x hx hxt
          rw [List.mem_singleton.mp hxt] at hx
          exact hmem hx
        have hcov2 : ∀ x ∈ pre ++ [t], x.visOf = true → tyOfN x ∈ ks ++ [tyOfN t] := by
          intro x hx hvx
          rcases List.mem_append.mp hx with h | h
          · exact List.mem_append_left _ (hcov x h hvx)
          · rw [List.mem_singleton.mp h]
            exact List.mem_append_right _ (List.mem_singleton.mpr rfl)
        rw [hstep, hkeys, ih (ks ++ [tyOfN t]) (pre ++ [t]) hks2 hcov2,
          List.append_assoc, List.singleton_append]
    · have hvf : t.visOf = false := by simpa using hv
      have hkeys : keysStep ks t = ks := by
        unfold keysStep
        rw [if_neg hv]
      have hstep : groupStep (groupsShape ks pre) t = groupsShape ks (pre ++ [t]) := by
        unfold groupStep
        rw [if_neg hv]
        exact (groupsShape_snoc_invisible hvf).symm
      have hcov2 : ∀ x ∈ pre ++ [t], x.visOf = true → tyOfN x ∈ ks := by
        intro x hx hvx
        rcases List.mem_append.mp hx with h | h
        · exact hcov x h hvx
        · rw [List.mem_singleton.mp h] at hvx
          rw [hvf] at hvx
          cases hvx
      rw [hstep, hkeys, ih ks (pre ++ [t]) hks hcov2, List.append_assoc,
        List.singleton_append]

/-- `groupVisRoots` in closed form: one bucket per key of `keysOf`, each
holding the visible roots of that type in encounter order. -/
theorem groupVisRoots_eq (l : List TreeNode) :
    groupVisRoots l = groupsShape (keysOf l) l := by
  have h := foldl_groupStep_shape l [] [] List.nodup_nil (by intro x hx; cases hx)
  simpa [groupVisRoots, keysOf, groupsShape] using h

/-- `flatMap` congruence on members. -/
theorem flatMap_congr_mem {α β : Type} {l : List α} {f g : α → List β}
    (h : ∀ a ∈ l, f a = g a) : l.flatMap f = l.flatMap g := by
  have hm : l.map f = l.map g := List.map_congr_left h
  show (l.map f).flatten = (l.map g).flatten
  rw [hm]

/-- Distinct keys covering every visible element split the visible
elements of a list into a permutation of per-key buckets. -/
theorem flatMap_filter_key_perm :
    ∀ (ks : List String) (l : List TreeNode), ks.Nodup →
      (∀ t ∈ l, t.visOf = true → tyOfN t ∈ ks) →
      (ks.flatMap (fun k => l.filter (fun t => t.visOf && tyOfN t == k))).Perm
        (l.filter (fun t => t.visOf)) := by
  intro ks
  induction ks with
  | nil =>
    intro l _ hcov
    have hnil : l.filter (fun t => t.visOf) = [] := by
      rw [List.filter_eq_nil_iff]
      intro t ht hq
      exact absurd (hcov t ht hq) (List.not_mem_nil _)
    rw [hnil, List.flatMap_nil]
  | cons k ks ih =>
    intro l hks hcov
    rw [List.nodup_cons] at hks
    have hbuck : ∀ k0 ∈ ks,
        (l.filter (fun t => !(tyOfN t == k))).filter
            (fun t => t.visOf && tyOfN t == k0)
          = l.filter (fun t => t.visOf && tyOfN t == k0) := by
      intro k0 hk0
      rw [List.filter_filter]
      apply List.filter_congr
      intro t _
      by_cases hty : tyOfN t = k0
      · have h1 : (k0 == k) = false :=
          beq_eq_false_iff_ne.mpr (fun h => hks.1 (h ▸ hk0))
        simp [hty, h1]
      · simp [beq_eq_false_iff_ne.mpr hty]
    have hcovl2 : ∀ t ∈ l.filter (fun t => !(tyOfN t == k)),
        t.visOf = true → tyOfN t ∈ ks := by
      intro t ht hv
      have hmem := List.mem_of_mem_filter ht
      have hprop : ¬tyOfN t = k := by simpa using List.of_mem_filter ht
      rcases List.mem_cons.mp (hcov t hmem hv) with h | h
      · exact absurd h hprop
      · exact h
    have hperm2 := ih (l.filter (fun t => !(tyOfN t == k))) hks.2 hcovl2
    have hflat :
        ks.flatMap (fun k0 => (l.filter (fun t => !(tyOfN t == k))).filter
            (fun t => t.visOf && tyOfN t == k0))
          = ks.flatMap (fun k0 => l.filter (fun t => t.visOf && tyOfN t == k0)) :=
      flatMap_congr_mem hbuck
    have hpart :
        ((l.filter (fun t => t.visOf)).filter (fun t => tyOfN t == k) ++
          (l.filter (fun t => t.visOf)).filter (fun t => !(tyOfN t == k))).Perm
          (l.filter (fun t => t.visOf)) := List.filter_append_perm _ _
    have e1 : (l.filter (fun t => t.visOf)).filter (fun t => tyOfN t == k)
        = l.filter (fun t => t.visOf && tyOfN t == k) := by
      rw [List.filter_filter]
      apply List.filter_congr
      intro t _
      exact Bool.and_comm _ _
    have e2 : (l.filter (fun t => t.visOf)).filter (fun t => !(tyOfN t == k))
        = (l.filter (fun t => !(tyOfN t == k))).filter (fun t => t.visOf) := by
      rw [List.filter_filter, List.filter_filter]
      apply List.filter_congr
      intro t _
      exact Bool.and_comm _ _
    rw [List.flatMap_cons]
    refine List.Perm.trans ?_ hpart
    rw [e1, e2]
    exact List.Perm.append_left _ (hflat ▸ hperm2)

/-! ## Theorems: the comparator is a total preorder -/

/-- Codepoint comparison is reflexive. -/
theorem cmpChars_self : ∀ a : List Char, cmpChars a a = .eq := by
  intro a
  induction a with
  | nil => rfl
  | cons c cs ih =>
    simp only [cmpChars]
    rw [if_neg (lt_irrefl c), if_neg (lt_irrefl c), ih]

/-- Codepoint comparison returns `eq` exactly on equal lists. -/
theorem cmpChars_eq_iff : ∀ a b : List Char, cmpChars a b = .eq ↔ a = b := by
  intro a
  induction a with
  | nil =>
    intro b
    cases b with
    | nil => simp [cmpChars]
    | cons d ds => simp [cmpChars]
  | cons c cs ih =>
    intro b
    cases b with
    | nil => simp [cmpChars]
    | cons d ds =>
      simp only [cmpChars]
      by_cases h1 : c < d
      · rw [if_pos h1]
        constructor
        · intro h; exact absurd h (by decide)
        · intro h
          injection h with hc hs
          exact absurd (hc ▸ h1) (lt_irrefl d)
      · by_cases h2 : d < c
        · rw [if_neg h1, if_pos h2]
          constructor
          · intro h; exact absurd h (by decide)
          · intro h
            injection h with hc hs
            exact absurd (hc ▸ h2) (lt_irrefl c)
        · rw [if_neg h1, if_neg h2]
          have hcd : c = d := le_antisymm (le_of_not_lt h2) (le_of_not_lt h1)
          rw [ih ds, hcd]
          simp

/-- Swapping the arguments swaps the comparison. -/
theorem cmpChars_swap : ∀ a b : List Char, cmpChars b a = (cmpChars a b).swap := by
  intro a
  induction a with
  | nil =>
    intro b
    cases b with
    | nil => rfl
    | cons d ds => rfl
  | cons c cs ih =>
    intro b
    cases b with
    | nil => rfl
    | cons d ds =>
      simp only [cmpChars]
      by_cases h1 : c < d
      · rw [if_pos h1, if_neg (asymm h1), if_pos h1]
        rfl
      · by_cases h2 : d < c
        · rw [if_pos h2, if_neg h1, if_pos h2]
          rfl
        · rw [if_neg h2, if_neg h1, if_neg h1, if_neg h2]
          exact ih ds

/-- Strict codepoint comparison is transitive. -/
theorem cmpChars_lt_trans :
    ∀ a b c : List Char, cmpChars a b = .lt → cmpChars b c = .lt →
      cmpChars a c = .lt := by
  intro a
  induction a with
  | nil =>
    intro b c hab hbc
    cases b with
    | nil => exact hbc
    | cons b1 bs =>
      cases c with
      | nil => exact absurd hbc (by simp [cmpChars])
      | cons c1 cs => rfl
  | cons a1 as ih =>
    intro b c hab hbc
    cases b with
    | nil => exact absurd hab (by simp [cmpChars])
    | cons b1 bs =>
      cases c with
      | nil => exact absurd hbc (by simp [cmpChars])
      | cons c1 cs =>
        simp only [cmpChars] at hab hbc ⊢
        by_cases h1 : a1 < b1
        · by_cases h2 : b1 < c1
          · rw [if_pos (lt_trans h1 h2)]
          · by_cases h3 : c1 < b1
            · rw [if_neg h2, if_pos h3] at hbc
              exact absurd hbc (by decide)
            · have hbc1 : b1 = c1 := le_antisymm (le_of_not_lt h3) (le_of_not_lt h2)
              rw [if_pos (hbc1 ▸ h1)]
        · by_cases h1b : b1 < a1
          · rw [if_neg h1, if_pos h1b] at hab
            exact absurd hab (by decide)
          · have hab1 : a1 = b1 := le_antisymm (le_of_not_lt h1b) (le_of_not_lt h1)
            rw [if_neg h1, if_neg h1b] at hab
            by_cases h2 : b1 < c1
            · rw [if_pos (hab1 ▸ h2)]
            · by_cases h3 : c1 < b1
              · rw [if_neg h2, if_pos h3] at hbc
                exact absurd hbc (by decide)
              · have hbc1 : b1 = c1 := le_antisymm (le_of_not_lt h3) (le_of_not_lt h2)
                rw [if_neg h2, if_neg h3] at hbc
                have hac1 : ¬a1 < c1 := hbc1 ▸ hab1 ▸ lt_irrefl a1
                have hca1 : ¬c1 < a1 := hbc1 ▸ hab1 ▸ lt_irrefl a1
                rw [if_neg hac1, if_neg hca1]
                exact ih bs cs hab hbc

/-- Non-strict codepoint comparison is transitive. -/
theorem cmpChars_le_trans {a b c : List Char} (hab : cmpChars a b ≠ .gt)
    (hbc : cmpChars b c ≠ .gt) : cmpChars a c ≠ .gt := by
  cases h1 : cmpChars a b with
  | gt => exact absurd h1 hab
  | eq =>
    rw [(cmpChars_eq_iff a b).mp h1]
    exact hbc
  | lt =>
    cases h2 : cmpChars b c with
    | gt => exact absurd h2 hbc
    | eq =>
      rw [← (cmpChars_eq_iff b c).mp h2, h1]
      decide
    | lt =>
      rw [cmpChars_lt_trans a b c h1 h2]
      decide

/-- `localeCompare` is antisymmetric under argument swap. -/
theorem jsLocaleCompare_swap (a b : String) :
    jsLocaleCompare b a = (jsLocaleCompare a b).swap := by
  unfold jsLocaleCompare
  rw [cmpChars_swap (jsToLower a).data (jsToLower b).data,
    cmpChars_swap a.data b.data]
  cases cmpChars (jsToLower a).data (jsToLower b).data <;> rfl

/-- The comparator's non-strict order in disjunctive form. -/
theorem jsLocaleCompare_not_gt_iff (a b : String) :
    jsLocaleCompare a b ≠ .gt ↔
      (cmpChars (jsToLower a).data (jsToLower b).data = .lt ∨
        (cmpChars (jsToLower a).data (jsToLower b).data = .eq ∧
          cmpChars a.data b.data ≠ .gt)) := by
  unfold jsLocaleCompare
  cases h : cmpChars (jsToLower a).data (jsToLower b).data <;> simp

/-- The comparator's non-strict order is transitive. -/
theorem jsLocaleCompare_le_trans {a b c : String}
    (hab : jsLocaleCompare a b ≠ .gt) (hbc : jsLocaleCompare b c ≠ .gt) :
    jsLocaleCompare a c ≠ .gt := by
  rw [jsLocaleCompare_not_gt_iff] at hab hbc ⊢
  rcases hab with h1 | ⟨h1, h1s⟩ <;> rcases hbc with h2 | ⟨h2, h2s⟩
  · exact Or.inl (cmpChars_lt_trans _ _ _ h1 h2)
  · left
    rw [← (cmpChars_eq_iff _ _).mp h2]
    exact h1
  · left
    rw [(cmpChars_eq_iff _ _).mp h1]
    exact h2
  · right
    constructor
    · rw [(cmpChars_eq_iff _ _).mp h1]
      exact h2
    · exact cmpChars_le_trans h1s h2s

/-- The Boolean group order holds iff the comparator did not say `gt`. -/
theorem tgLeB_eq_true_iff (a b : TypeGroup) :
    tgLeB a b = true ↔ jsLocaleCompare a.typeName b.typeName ≠ .gt := by
  unfold tgLeB
  cases h : jsLocaleCompare a.typeName b.typeName <;> simp

/-- The Boolean group order is transitive. -/
theorem tgLeB_trans : ∀ a b c : TypeGroup, tgLeB a b = true → tgLeB b c = true →
    tgLeB a c = true := by
  intro a b c hab hbc
  rw [tgLeB_eq_true_iff] at hab hbc ⊢
  exact jsLocaleCompare_le_trans hab hbc

/-- The Boolean group order is total. -/
theorem tgLeB_total : ∀ a b : TypeGroup, (tgLeB a b || tgLeB b a) = true := by
  intro a b
  by_cases h : jsLocaleCompare a.typeName b.typeName = .gt
  · have hswap : jsLocaleCompare b.typeName a.typeName = .lt := by
      rw [jsLocaleCompare_swap, h]
      rfl
    have hb : tgLeB b a = true :=
      (tgLeB_eq_true_iff b a).mpr (by rw [hswap]; decide)
    rw [hb, Bool.or_true]
  · have ha : tgLeB a b = true := (tgLeB_eq_true_iff a b).mpr h
    rw [ha, Bool.true_or]

/-- C6: the TypeGroups returned by `buildTree` partition exactly the
visible roots: the group names are the distinct types of the visible
roots (one group per type, so no root is in two groups), each group's
node list is precisely the visible roots of its type in encounter order,
the concatenation of all groups is a permutation of the visible roots,
and the groups are sorted by the locale comparator on type names. -/
theorem C6_grouping_partition (rs : List Resource) (matched : List String)
    (mode : TreeMode) :
    ((buildTree rs matched mode).map TypeGroup.typeName).Perm
        (keysOf (visForestF rs matched mode rs.length)) ∧
    ((buildTree rs matched mode).map TypeGroup.typeName).Nodup ∧
    (∀ g ∈ buildTree rs matched mode,
      g.nodes = (visForestF rs matched mode rs.length).filter
        (fun t => t.visOf && tyOfN t == g.typeName)) ∧
    ((buildTree rs matched mode).flatMap TypeGroup.nodes).Perm
        ((visForestF rs matched mode rs.length).filter (fun t => t.visOf)) ∧
    List.Pairwise (fun a b => tgLeB a b = true) (buildTree rs matched mode) := by
  have hbt : buildTree rs matched mode =
      ((groupsShape (keysOf (visForestF rs matched mode rs.length))
          (visForestF rs matched mode rs.length)).map
        (fun kv => TypeGroup.mk kv.fst kv.snd (decide (0 < kv.snd.length)))).mergeSort
        tgLeB := by
    rw [buildTree, buildTreeFuel, groupVisRoots_eq]
  have hknodup : (keysOf (visForestF rs matched mode rs.length)).Nodup :=
    foldl_keysStep_nodup (visForestF rs matched mode rs.length) [] List.nodup_nil
  have hperm0 : (buildTree rs matched mode).Perm
      ((groupsShape (keysOf (visForestF rs matched mode rs.length))
          (visForestF rs matched mode rs.length)).map
        (fun kv => TypeGroup.mk kv.fst kv.snd (decide (0 < kv.snd.length)))) := by
    rw [hbt]
    exact List.mergeSort_perm _ _
  have hnames : (((groupsShape (keysOf (visForestF rs matched mode rs.length))
          (visForestF rs matched mode rs.length)).map
        (fun kv => TypeGroup.mk kv.fst kv.snd (decide (0 < kv.snd.length)))).map
          TypeGroup.typeName)
      = keysOf (visForestF rs matched mode rs.length) := by
    rw [List.map_map, groupsShape, List.map_map]
    simp [Function.comp_def]
  refine ⟨hnames ▸ (hperm0.map TypeGroup.typeName), ?_, ?_, ?_, ?_⟩
  · exact (hnames ▸ (hperm0.map TypeGroup.typeName)).nodup_iff.mpr hknodup
  · intro g hg
    have hg2 := (hperm0.mem_iff).mp hg
    rcases List.mem_map.mp hg2 with ⟨kv, hkv, hge⟩
    rw [groupsShape] at hkv
    rcases List.mem_map.mp hkv with ⟨k, hk, hkve⟩
    subst hge
    subst hkve
    rfl
  · have h4a : ((buildTree rs matched mode).flatMap TypeGroup.nodes).Perm
        (((groupsShape (keysOf (visForestF rs matched mode rs.length))
            (visForestF rs matched mode rs.length)).map
          (fun kv => TypeGroup.mk kv.fst kv.snd
            (decide (0 < kv.snd.length)))).flatMap TypeGroup.nodes) :=
      (hperm0.map TypeGroup.nodes).flatten
    have h4b : (((groupsShape (keysOf (visForestF rs matched mode rs.length))
            (visForestF rs matched mode rs.length)).map
          (fun kv => TypeGroup.mk kv.fst kv.snd
            (decide (0 < kv.snd.length)))).flatMap TypeGroup.nodes)
        = (keysOf (visForestF rs matched mode rs.length)).flatMap
            (fun k => (visForestF rs matched mode rs.length).filter
              (fun t => t.visOf && tyOfN t == k)) := by
      rw [List.flatMap_map, groupsShape, List.flatMap_map]
    have h4c := flatMap_filter_key_perm
      (keysOf (visForestF rs matched mode rs.length))
      (visForestF rs matched mode rs.length) hknodup
      (fun t ht hv => foldl_keysStep_cov (visForestF rs matched mode rs.length) [] t ht hv)
    rw [h4b] at h4a
    exact h4a.trans h4c
  · rw [hbt]
    exact List.sorted_mergeSort tgLeB_trans tgLeB_total _

/-! ## Theorems: the visibility pass -/

/-- `calcVisL` maps `calcVis`. -/
theorem calcVisL_eq_map : ∀ l : List TreeNode, calcVisL l = l.map calcVis := by
  intro l
  induction l with
  | nil => rfl
  | cons t ts ih =>
    rw [List.map_cons, ← ih]
    rfl

/-- A node heads its own flattening. -/
theorem self_mem_flatNodes (t : TreeNode) : t ∈ flatNodes t := by
  cases t with
  | node r m v cs => exact List.mem_cons_self _ _

/-- `any` congruence on members. -/
theorem any_congr_mem {α : Type} {l : List α} {p q : α → Bool}
    (h : ∀ x ∈ l, p x = q x) : l.any p = l.any q := by
  induction l with
  | nil => rfl
  | cons x xs ih =>
    rw [List.any_cons, List.any_cons, h x (List.mem_cons_self x xs),
      ih (fun y hy => h y (List.mem_cons_of_mem x hy))]

/-- The visibility invariant holds throughout the tree obtained by running
the visibility pass over a node whose children already satisfy it. -/
theorem visInvariant_root (r : Resource) (m v : Bool) (cs : List TreeNode)
    (hcs : ∀ c ∈ cs, ∀ n ∈ flatNodes (calcVis c),
      n.visOf = (n.matchOf || n.childrenOf.any TreeNode.visOf) ∧
        n.visOf = (flatNodes n).any TreeNode.matchOf) :
    ∀ n ∈ flatNodes (calcVis (.node r m v cs)),
      n.visOf = (n.matchOf || n.childrenOf.any TreeNode.visOf) ∧
        n.visOf = (flatNodes n).any TreeNode.matchOf := by
  intro n hn
  have hcalc : calcVis (.node r m v cs) =
      .node r m (m || (calcVisL cs).any TreeNode.visOf) (calcVisL cs) := rfl
  rw [hcalc] at hn
  have hflat : flatNodes (TreeNode.node r m
        (m || (calcVisL cs).any TreeNode.visOf) (calcVisL cs))
      = TreeNode.node r m (m || (calcVisL cs).any TreeNode.visOf) (calcVisL cs)
          :: flatNodesL (calcVisL cs) := rfl
  rw [hflat] at hn
  rcases List.mem_cons.mp hn with hroot | hrest
  · subst hroot
    constructor
    · rfl
    · rw [hflat, List.any_cons]
      show (m || (calcVisL cs).any TreeNode.visOf)
        = (m || (flatNodesL (calcVisL cs)).any TreeNode.matchOf)
      have hc2 : (calcVisL cs).any TreeNode.visOf
          = (flatNodesL (calcVisL cs)).any TreeNode.matchOf := by
        rw [flatNodesL_eq, List.any_flatMap]
        apply any_congr_mem
        intro c2 hc2
        rw [calcVisL_eq_map] at hc2
        rcases List.mem_map.mp hc2 with ⟨c, hc, hce⟩
        subst hce
        exact (hcs c hc (calcVis c) (self_mem_flatNodes (calcVis c))).2
      rw [hc2]
  · rw [flatNodesL_eq] at hrest
    rcases List.mem_flatMap.mp hrest with ⟨c2, hc2, hn2⟩
    rw [calcVisL_eq_map] at hc2
    rcases List.mem_map.mp hc2 with ⟨c, hc, hce⟩
    subst hce
    exact hcs c hc n hn2

/-- The visibility invariant holds in every visibility-passed unfolding of
the node graph. -/
theorem visInvariant_buildNode (rs : List Resource) (matched : List String)
    (mode : TreeMode) :
    ∀ (fuel : Nat) (u : String) (n : TreeNode),
      n ∈ flatNodes (calcVis (buildNode rs matched mode fuel u)) →
      (n.visOf = (n.matchOf || n.childrenOf.any TreeNode.visOf) ∧
        n.visOf = (flatNodes n).any TreeNode.matchOf) := by
  intro fuel
  induction fuel with
  | zero =>
    intro u n hn
    exact visInvariant_root (resOfD rs u) (matched.contains u) false []
      (by intro c hc; cases hc) n hn
  | succ f ih =>
    intro u n hn
    refine visInvariant_root (resOfD rs u) (matched.contains u) false
      ((childUrns rs mode u).map (buildNode rs matched mode f)) ?_ n hn
    intro c hc
    rcases List.mem_map.mp hc with ⟨w, hw, hce⟩
    subst hce
    intro n2 hn2
    exact ih w n2 hn2

/-- C5: after the visibility pass, every node of the resulting forest
satisfies `isVisible = (isMatch || any child is visible)`; equivalently a
node is visible exactly when its subtree holds a match, so every node
whose subtree holds a matched node — in particular every ancestor of a
matched node, up to its root — is visible. -/
theorem C5_visibility_invariant (rs : List Resource) (matched : List String)
    (mode : TreeMode) :
    ∀ root ∈ visForestF rs matched mode rs.length, ∀ n ∈ flatNodes root,
      n.visOf = (n.matchOf || n.childrenOf.any TreeNode.visOf) ∧
      n.visOf = (flatNodes n).any TreeNode.matchOf ∧
      (∀ d ∈ flatNodes n, d.matchOf = true → n.visOf = true) := by
  intro root hroot n hn
  have hex : ∃ u, root = calcVis (buildNode rs matched mode rs.length u) := by
    unfold visForestF forestF at hroot
    rw [List.map_map] at hroot
    rcases List.mem_map.mp hroot with ⟨u, hu, hue⟩
    exact ⟨u, hue.symm⟩
  rcases hex with ⟨u, hu⟩
  subst hu
  have h := visInvariant_buildNode rs matched mode rs.length u n hn
  refine ⟨h.1, h.2, ?_⟩
  intro d hd hdm
  rw [h.2, List.any_eq_true]
  exact ⟨d, hd, hdm⟩

/-- Witness for C5: in the two-resource scenario (a VPC root whose subnet
child is matched), the invariant instantiates to make the unmatched root
visible. -/
theorem C5_visibility_invariant_witness :
    (calcVis (buildNode [{type := "sst:aws:Vpc", urn := "uA"}, {type := "aws:ec2/subnet:Subnet", urn := "uB", parent := some "uA"}] ["uB"] TreeMode.tree 2 "uA")).visOf = true := by
  have h := C5_visibility_invariant
    [{type := "sst:aws:Vpc", urn := "uA"}, {type := "aws:ec2/subnet:Subnet", urn := "uB", parent := some "uA"}]
    ["uB"] TreeMode.tree
    (calcVis (buildNode [{type := "sst:aws:Vpc", urn := "uA"}, {type := "aws:ec2/subnet:Subnet", urn := "uB", parent := some "uA"}] ["uB"] TreeMode.tree 2 "uA"))
    (by
      show calcVis (buildNode [{type := "sst:aws:Vpc", urn := "uA"}, {type := "aws:ec2/subnet:Subnet", urn := "uB", parent := some "uA"}] ["uB"] TreeMode.tree 2 "uA") ∈ visForestF [{type := "sst:aws:Vpc", urn := "uA"}, {type := "aws:ec2/subnet:Subnet", urn := "uB", parent := some "uA"}] ["uB"] TreeMode.tree 2
      rw [show visForestF [{type := "sst:aws:Vpc", urn := "uA"}, {type := "aws:ec2/subnet:Subnet", urn := "uB", parent := some "uA"}] ["uB"] TreeMode.tree 2
          = [calcVis (buildNode [{type := "sst:aws:Vpc", urn := "uA"}, {type := "aws:ec2/subnet:Subnet", urn := "uB", parent := some "uA"}] ["uB"] TreeMode.tree 2 "uA")] from rfl]
      exact List.mem_singleton.mpr rfl)
    (calcVis (buildNode [{type := "sst:aws:Vpc", urn := "uA"}, {type := "aws:ec2/subnet:Subnet", urn := "uB", parent := some "uA"}] ["uB"] TreeMode.tree 2 "uA"))
    (self_mem_flatNodes _)
  refine h.2.2
    (calcVis (buildNode [{type := "sst:aws:Vpc", urn := "uA"}, {type := "aws:ec2/subnet:Subnet", urn := "uB", parent := some "uA"}] ["uB"] TreeMode.tree 1 "uB"))
    ?_ rfl
  rw [show flatNodes (calcVis (buildNode [{type := "sst:aws:Vpc", urn := "uA"}, {type := "aws:ec2/subnet:Subnet", urn := "uB", parent := some "uA"}] ["uB"] TreeMode.tree 2 "uA"))
      = [calcVis (buildNode [{type := "sst:aws:Vpc", urn := "uA"}, {type := "aws:ec2/subnet:Subnet", urn := "uB", parent := some "uA"}] ["uB"] TreeMode.tree 2 "uA"),
        calcVis (buildNode [{type := "sst:aws:Vpc", urn := "uA"}, {type := "aws:ec2/subnet:Subnet", urn := "uB", parent := some "uA"}] ["uB"] TreeMode.tree 1 "uB")] from rfl]
  exact List.mem_cons_of_mem _ (List.mem_cons_self _ _)
